import Mathlib

/-!
Shallow embedding of the resume-ingestion and skill-matching core of the
repository (files `main4.py` and `with_word_search_only.py`).

The two Python files share: MD5 fingerprinting of extracted resume text
(`get_pdf_hash`), an LLM-based structured extraction step
(`get_structured_data_from_llm`), a Neo4j persistence step
(`add_candidate_to_neo4j`) built from py2neo `merge` operations, an upload
processing loop with an in-session `processed_files` set, and a skill search
query.  The variant file lower-cases every extracted string and uses a
multi-skill set-containment Cypher query.

External collaborators are modelled at their boundaries, following the spec's
scoping: the PDF extractor is opaque (each uploaded file carries its extracted
text), the LLM plus `json.loads` is an opaque outcome `Option Json` (`none`
covers a transport error or an unparseable response - exactly the cases in
which the Python `try` block raises before producing a value), and the Neo4j
store is a property-graph state with merge-by-key semantics.  Python string
`lower()` is modelled on the ASCII range (all inputs in scope are ASCII).
JSON numbers are modelled as integers (no claim involves numeric fields).
-/

/-- JSON values as produced by `json.loads` on the LLM response.  Object
fields are an association list; parsed Python dicts have pairwise-distinct
keys. -/
inductive Json where
  | null
  | bool (b : Bool)
  | num (n : Int)
  | str (s : String)
  | arr (elems : List Json)
  | obj (fields : List (String × Json))
deriving Repr

mutual

/-- Structural equality test on JSON values. -/
def Json.beq : Json → Json → Bool
  | .null, .null => true
  | .bool a, .bool b => a == b
  | .num a, .num b => a == b
  | .str a, .str b => a == b
  | .arr xs, .arr ys => Json.beqList xs ys
  | .obj fs, .obj gs => Json.beqFields fs gs
  | _, _ => false

/-- Equality test on lists of JSON values. -/
def Json.beqList : List Json → List Json → Bool
  | [], [] => true
  | x :: xs, y :: ys => Json.beq x y && Json.beqList xs ys
  | _, _ => false

/-- Equality test on association lists of JSON object fields. -/
def Json.beqFields : List (String × Json) → List (String × Json) → Bool
  | [], [] => true
  | (k, v) :: fs, (l, w) :: gs => k == l && Json.beq v w && Json.beqFields fs gs
  | _, _ => false

end

mutual

theorem Json.beq_iff : ∀ (a b : Json), Json.beq a b = true ↔ a = b
  | .null, b => by cases b <;> simp [Json.beq]
  | .bool a, b => by cases b <;> simp [Json.beq]
  | .num a, b => by cases b <;> simp [Json.beq]
  | .str a, b => by cases b <;> simp [Json.beq]
  | .arr xs, b => by
      cases b <;> simp [Json.beq]
      exact Json.beqList_iff xs _
  | .obj fs, b => by
      cases b <;> simp [Json.beq]
      exact Json.beqFields_iff fs _

theorem Json.beqList_iff : ∀ (xs ys : List Json), Json.beqList xs ys = true ↔ xs = ys
  | [], ys => by cases ys <;> simp [Json.beqList]
  | x :: xs, ys => by
      cases ys with
      | nil => simp [Json.beqList]
      | cons y ys => simp [Json.beqList, Json.beq_iff x y, Json.beqList_iff xs ys]

theorem Json.beqFields_iff :
    ∀ (fs gs : List (String × Json)), Json.beqFields fs gs = true ↔ fs = gs
  | [], gs => by cases gs <;> simp [Json.beqFields]
  | (k, v) :: fs, gs => by
      cases gs with
      | nil => simp [Json.beqFields]
      | cons g gs =>
          obtain ⟨l, w⟩ := g
          simp [Json.beqFields, Json.beq_iff v w, Json.beqFields_iff fs gs]

end

instance : DecidableEq Json := fun a b =>
  decidable_of_iff (Json.beq a b = true) (Json.beq_iff a b)

/-- Python truthiness (`if structured_data:`): empty dict, empty list, empty
string, zero and `None` are falsy. -/
def Json.truthy : Json → Bool
  | .null => false
  | .bool b => b
  | .num n => n != 0
  | .str s => s != ""
  | .arr xs => !xs.isEmpty
  | .obj fs => !fs.isEmpty

/-- Python `d.get(key, default)`.  Returns `none` (an `AttributeError`) when
the receiver is not a dict. -/
def Json.dictGet : Json → String → Json → Option Json
  | .obj fs, k, d => some ((fs.lookup k).getD d)
  | _, _, _ => none

/-- Python `str.lower` restricted to ASCII, on a single character. -/
def pyLowerChar (c : Char) : Char :=
  if c.toNat ≥ 65 ∧ c.toNat ≤ 90 then Char.ofNat (c.toNat + 32) else c

/-- Python `str.lower` restricted to ASCII. -/
def pyLowerString (s : String) : String :=
  ⟨s.data.map pyLowerChar⟩

/-- Python `v.lower()` on a JSON value: an `AttributeError` (modelled as
`none`) unless the value is a string. -/
def Json.pyLower : Json → Option Json
  | .str s => some (.str (pyLowerString s))
  | _ => none

/-- Python iteration `for x in v`: lists iterate over their elements, strings
over their one-character substrings, dicts over their keys; other values
raise `TypeError` (modelled as `none`). -/
def Json.pyIter : Json → Option (List Json)
  | .arr xs => some xs
  | .str s => some (s.data.map (fun c => .str (String.singleton c)))
  | .obj fs => some (fs.map (fun kv => .str kv.1))
  | _ => none

/-! ## MD5 (`hashlib.md5(text.encode('utf-8')).hexdigest()`)

The fingerprint function `get_pdf_hash` of both source files.  Implemented
over byte lists with 32-bit words as `Nat` reduced mod `2 ^ 32`. -/

/-- UTF-8 encoding of a single character as a byte list. -/
def utf8EncodeChar (c : Char) : List Nat :=
  let n := c.toNat
  if n < 128 then [n]
  else if n < 2048 then [192 + n / 64, 128 + n % 64]
  else if n < 65536 then [224 + n / 4096, 128 + n / 64 % 64, 128 + n % 64]
  else [240 + n / 262144, 128 + n / 4096 % 64, 128 + n / 64 % 64, 128 + n % 64]

/-- UTF-8 encoding of a string (`text.encode('utf-8')`). -/
def utf8Encode (s : String) : List Nat :=
  (s.data.map utf8EncodeChar).flatten

/-- Per-step sine-derived constant table of MD5 (RFC 1321). -/
def md5K : List Nat :=
  [0xd76aa478, 0xe8c7b756, 0x242070db, 0xc1bdceee,
   0xf57c0faf, 0x4787c62a, 0xa8304613, 0xfd469501,
   0x698098d8, 0x8b44f7af, 0xffff5bb1, 0x895cd7be,
   0x6b901122, 0xfd987193, 0xa679438e, 0x49b40821,
   0xf61e2562, 0xc040b340, 0x265e5a51, 0xe9b6c7aa,
   0xd62f105d, 0x02441453, 0xd8a1e681, 0xe7d3fbc8,
   0x21e1cde6, 0xc33707d6, 0xf4d50d87, 0x455a14ed,
   0xa9e3e905, 0xfcefa3f8, 0x676f02d9, 0x8d2a4c8a,
   0xfffa3942, 0x8771f681, 0x6d9d6122, 0xfde5380c,
   0xa4beea44, 0x4bdecfa9, 0xf6bb4b60, 0xbebfbc70,
   0x289b7ec6, 0xeaa127fa, 0xd4ef3085, 0x04881d05,
   0xd9d4d039, 0xe6db99e5, 0x1fa27cf8, 0xc4ac5665,
   0xf4292244, 0x432aff97, 0xab9423a7, 0xfc93a039,
   0x655b59c3, 0x8f0ccc92, 0xffeff47d, 0x85845dd1,
   0x6fa87e4f, 0xfe2ce6e0, 0xa3014314, 0x4e0811a1,
   0xf7537e82, 0xbd3af235, 0x2ad7d2bb, 0xeb86d391]

/-- Per-step left-rotation amounts of MD5 (RFC 1321). -/
def md5S : List Nat :=
  [7, 12, 17, 22, 7, 12, 17, 22, 7, 12, 17, 22, 7, 12, 17, 22,
   5, 9, 14, 20, 5, 9, 14, 20, 5, 9, 14, 20, 5, 9, 14, 20,
   4, 11, 16, 23, 4, 11, 16, 23, 4, 11, 16, 23, 4, 11, 16, 23,
   6, 10, 15, 21, 6, 10, 15, 21, 6, 10, 15, 21, 6, 10, 15, 21]

/-- Left rotation of a 32-bit word. -/
def rotl32 (x n : Nat) : Nat :=
  ((x <<< n) ||| (x >>> (32 - n))) % 4294967296

/-- One of the 64 MD5 steps, acting on the running `(A, B, C, D)` state with
the 16 message words `M` of the current block. -/
def md5Step (M : List Nat) (st : Nat × Nat × Nat × Nat) (i : Nat) :
    Nat × Nat × Nat × Nat :=
  let A := st.1
  let B := st.2.1
  let C := st.2.2.1
  let D := st.2.2.2
  let fg : Nat × Nat :=
    if i < 16 then ((B &&& C) ||| ((B ^^^ 4294967295) &&& D), i)
    else if i < 32 then ((D &&& B) ||| ((D ^^^ 4294967295) &&& C), (5 * i + 1) % 16)
    else if i < 48 then (B ^^^ C ^^^ D, (3 * i + 5) % 16)
    else (C ^^^ (B ||| (D ^^^ 4294967295)), (7 * i) % 16)
  let f := (fg.1 + A + md5K.getD i 0 + M.getD fg.2 0) % 4294967296
  (D, (B + rotl32 f (md5S.getD i 0)) % 4294967296, B, C)

/-- Little-endian decomposition of a number into `n` bytes. -/
def toBytesLE : Nat → Nat → List Nat
  | 0, _ => []
  | n + 1, x => x % 256 :: toBytesLE n (x / 256)

/-- Group a byte list into little-endian 32-bit words. -/
def bytesToWordsLE : List Nat → List Nat
  | b0 :: b1 :: b2 :: b3 :: rest =>
      (b0 + b1 * 256 + b2 * 65536 + b3 * 16777216) :: bytesToWordsLE rest
  | _ => []

/-- MD5 padding: append `0x80`, zero bytes up to 56 mod 64, then the
original bit length as eight little-endian bytes. -/
def md5Pad (msg : List Nat) : List Nat :=
  let padLen := (119 - msg.length % 64) % 64
  msg ++ [128] ++ List.replicate padLen 0 ++ toBytesLE 8 ((msg.length * 8) % 18446744073709551616)

/-- Split a byte list into 64-byte blocks; the fuel argument (instantiated
with the list length, an upper bound on the number of blocks) makes the
recursion structural. -/
def md5ChunksAux : Nat → List Nat → List (List Nat)
  | 0, _ => []
  | _ + 1, [] => []
  | fuel + 1, l => l.take 64 :: md5ChunksAux fuel (l.drop 64)

/-- Split a padded message into 64-byte blocks. -/
def md5Chunks (l : List Nat) : List (List Nat) :=
  md5ChunksAux l.length l

/-- Process one 64-byte block, updating the four-word hash state. -/
def md5Block (st : Nat × Nat × Nat × Nat) (block : List Nat) :
    Nat × Nat × Nat × Nat :=
  let M := bytesToWordsLE block
  let r := (List.range 64).foldl (md5Step M) st
  ((st.1 + r.1) % 4294967296, (st.2.1 + r.2.1) % 4294967296,
   (st.2.2.1 + r.2.2.1) % 4294967296, (st.2.2.2 + r.2.2.2) % 4294967296)

/-- Hexadecimal digit character for a value below 16. -/
def hexDigit (n : Nat) : Char :=
  if n < 10 then Char.ofNat (48 + n) else Char.ofNat (87 + n)

/-- Lower-case hexadecimal rendering of one byte. -/
def byteToHex (b : Nat) : List Char :=
  [hexDigit (b / 16), hexDigit (b % 16)]

/-- MD5 digest of a byte list, as the usual 32-character lower-case
hexadecimal string. -/
def md5Hex (msg : List Nat) : String :=
  let st := (md5Chunks (md5Pad msg)).foldl md5Block
    (0x67452301, 0xefcdab89, 0x98badcfe, 0x10325476)
  ⟨((toBytesLE 4 st.1 ++ toBytesLE 4 st.2.1 ++ toBytesLE 4 st.2.2.1 ++
     toBytesLE 4 st.2.2.2).map byteToHex).flatten⟩

/-- Source `get_pdf_hash` (identical in both files):
`hashlib.md5(text.encode('utf-8')).hexdigest()`. -/
def get_pdf_hash (text : String) : String :=
  md5Hex (utf8Encode text)

/-! ## Property-graph store

The Neo4j store as used through py2neo: `Candidate` nodes merged by the
`content_hash` key, attribute nodes (`Skill`, `Education`, `Project`,
`Experience`, `Certification`) merged by label plus `name` key, and directed
typed relationships merged by endpoints and type.  Node property values are
JSON values, as the Python code passes extracted JSON data through
unchecked. -/

/-- A `Candidate` node: `Node("Candidate", name=..., content=..., content_hash=...)`. -/
structure CandidateNode where
  name : Json
  content : String
  content_hash : String
deriving DecidableEq, Repr

/-- An attribute node: `Node(label, name=item)` with `label` one of the five
categories. -/
structure AttrNode where
  label : String
  name : Json
deriving DecidableEq, Repr

/-- A directed typed relationship from a Candidate (identified by its
`content_hash` merge key) to an attribute node (identified by label and
name). -/
structure GraphEdge where
  startHash : String
  relType : String
  endLabel : String
  endName : Json
deriving DecidableEq, Repr

/-- The graph database state. -/
structure GraphState where
  candidates : List CandidateNode
  attrs : List AttrNode
  edges : List GraphEdge
deriving DecidableEq, Repr

/-- The empty store. -/
def GraphState.empty : GraphState := ⟨[], [], []⟩

/-- Model of `graph.merge(candidate, "Candidate", "content_hash")`: if a
Candidate with the same `content_hash` key exists it is matched and its
remaining properties are pushed, otherwise the node is created. -/
def mergeCandidate (g : GraphState) (c : CandidateNode) : GraphState :=
  if g.candidates.any (fun x => x.content_hash == c.content_hash) then
    { g with candidates := g.candidates.map (fun x =>
        if x.content_hash == c.content_hash then c else x) }
  else
    { g with candidates := g.candidates ++ [c] }

/-- Model of `graph.merge(node, label, "name")` for an attribute node: the
key (label plus `name`) is the whole node, so merge is create-if-absent. -/
def mergeAttrNode (g : GraphState) (a : AttrNode) : GraphState :=
  if g.attrs.contains a then g else { g with attrs := g.attrs ++ [a] }

/-- Model of `graph.merge(Relationship(candidate, rel, node))`: a
relationship is merged by its endpoints and type, created only if absent. -/
def mergeEdge (g : GraphState) (e : GraphEdge) : GraphState :=
  if g.edges.contains e then g else { g with edges := g.edges ++ [e] }

/-- Exceptions that can escape the ingestion code: Python type errors raised
by the `add_candidate_to_neo4j` body, and store write failures raised by
`graph.merge`. -/
inductive PyErr where
  | attributeError
  | typeError
  | storeWriteError
deriving DecidableEq, Repr

/-- Lift a fallible Python expression (`none` meaning the given exception is
raised) into the `Except` control flow. -/
def exOfOption (e : PyErr) : Option α → Except PyErr α
  | some a => .ok a
  | none => .error e

/-! ## Profile extraction (`get_structured_data_from_llm`)

The LLM call plus `json.loads` is an opaque boundary modelled as an
`Option Json` outcome: `none` when the call raises transport-side or the
response is not parseable JSON (the cases caught by the `try`/`except`),
`some parsed` otherwise. -/

/-- Source `get_structured_data_from_llm` of `main4.py`: the parsed JSON is
returned as-is; any exception in the `try` block yields the empty dict. -/
def get_structured_data_from_llm (oracle : Option Json) : Json :=
  match oracle with
  | some parsed => parsed
  | none => .obj []

/-- Element-wise `lower()` over an iterated sequence of JSON values: `some`
of the lowered list when every element is a string, `none` as soon as one
element's `lower()` raises. -/
def lowerAll : List Json → Option (List Json)
  | [] => some []
  | x :: xs =>
      match x.pyLower, lowerAll xs with
      | some y, some ys => some (y :: ys)
      | _, _ => none

/-- One list-field comprehension `[s.lower() for s in raw_data.get(key, [])]`
of the variant: iterate the value and lower-case each element, `none` when
iteration or any element `lower()` raises. -/
def lowerListField (v : Json) : Option Json := do
  let xs ← v.pyIter
  let ys ← lowerAll xs
  pure (.arr ys)

/-- The dict construction inside the `try` block of the variant's
`get_structured_data_from_llm`: every field fetched with a default and
lower-cased; `none` when any step raises. -/
def lowerProfileJson (raw : Json) : Option Json := do
  let name ← raw.dictGet "name" (.str "Unknown") >>= Json.pyLower
  let skills ← raw.dictGet "skills" (.arr []) >>= lowerListField
  let education ← raw.dictGet "education" (.arr []) >>= lowerListField
  let projects ← raw.dictGet "projects" (.arr []) >>= lowerListField
  let experience ← raw.dictGet "experience" (.arr []) >>= lowerListField
  let certifications ← raw.dictGet "certifications" (.arr []) >>= lowerListField
  pure (.obj [("name", name), ("skills", skills), ("education", education),
    ("projects", projects), ("experience", experience),
    ("certifications", certifications)])

/-- Source `get_structured_data_from_llm` of `with_word_search_only.py`: the
parsed JSON is normalized to a lower-cased six-field dict; any exception in
the `try` block (unparseable response or a type error during normalization)
yields the empty dict. -/
def get_structured_data_from_llm_variant (oracle : Option Json) : Json :=
  match oracle with
  | some raw => (lowerProfileJson raw).getD (.obj [])
  | none => .obj []

/-! ## Persistence (`add_candidate_to_neo4j`) -/

/-- The inner merge loop body for one category: for each item, merge the
attribute node and then the relationship from the candidate to it. -/
def persistItems (h rel label : String) (items : List Json) (g : GraphState) :
    GraphState :=
  items.foldl (fun g item =>
    mergeEdge (mergeAttrNode g ⟨label, item⟩) ⟨h, rel, label, item⟩) g

/-- Source `add_candidate_to_neo4j` of `main4.py`.  `storeOk` models whether
the store is reachable during this call: when false, the first `graph.merge`
raises a store write error (after `data.get("name", ...)` has already run).
A non-dict `data` raises `AttributeError` at the first `.get`. -/
def add_candidate_to_neo4j (storeOk : Bool) (data : Json) (resume_text : String)
    (g : GraphState) : Except PyErr GraphState := do
  let name ← exOfOption .attributeError (data.dictGet "name" (.str "Unknown"))
  let content_hash := get_pdf_hash resume_text
  if storeOk = false then throw .storeWriteError
  let g1 := mergeCandidate g ⟨name, resume_text, content_hash⟩
  let skills ← exOfOption .attributeError (data.dictGet "skills" (.arr []))
  let education ← exOfOption .attributeError (data.dictGet "education" (.arr []))
  let projects ← exOfOption .attributeError (data.dictGet "projects" (.arr []))
  let experience ← exOfOption .attributeError (data.dictGet "experience" (.arr []))
  let certifications ← exOfOption .attributeError (data.dictGet "certifications" (.arr []))
  [("Skill", "HAS_SKILL", skills), ("Education", "HAS_EDUCATION", education),
   ("Project", "HAS_PROJECT", projects), ("Experience", "HAS_EXPERIENCE", experience),
   ("Certification", "HAS_CERTIFICATION", certifications)].foldlM
    (fun g cat => do
      let items ← exOfOption .typeError cat.2.2.pyIter
      pure (persistItems content_hash cat.2.1 cat.1 items g)) g1

/-- The inner per-category loop of the variant's `add_candidate_to_neo4j`:
each item is lower-cased (`Node(label, name=item.lower())`, raising
`AttributeError` on a non-string) before the attribute node and the
relationship are merged. -/
def persistItemsLower (h rel label : String) (items : List Json)
    (g : GraphState) : Except PyErr GraphState :=
  items.foldlM (fun g item => do
    let low ← exOfOption .attributeError item.pyLower
    pure (mergeEdge (mergeAttrNode g ⟨label, low⟩) ⟨h, rel, label, low⟩)) g

/-- Source `add_candidate_to_neo4j` of `with_word_search_only.py`: identical
except that the candidate name and every item are lower-cased (raising
`AttributeError` on non-strings) before being stored. -/
def add_candidate_to_neo4j_variant (storeOk : Bool) (data : Json) (resume_text : String)
    (g : GraphState) : Except PyErr GraphState := do
  let name ← exOfOption .attributeError (data.dictGet "name" (.str "Unknown") >>= Json.pyLower)
  let content_hash := get_pdf_hash resume_text
  if storeOk = false then throw .storeWriteError
  let g1 := mergeCandidate g ⟨name, resume_text, content_hash⟩
  let skills ← exOfOption .attributeError (data.dictGet "skills" (.arr []))
  let education ← exOfOption .attributeError (data.dictGet "education" (.arr []))
  let projects ← exOfOption .attributeError (data.dictGet "projects" (.arr []))
  let experience ← exOfOption .attributeError (data.dictGet "experience" (.arr []))
  let certifications ← exOfOption .attributeError (data.dictGet "certifications" (.arr []))
  [("Skill", "HAS_SKILL", skills), ("Education", "HAS_EDUCATION", education),
   ("Project", "HAS_PROJECT", projects), ("Experience", "HAS_EXPERIENCE", experience),
   ("Certification", "HAS_CERTIFICATION", certifications)].foldlM
    (fun g cat => do
      let items ← exOfOption .typeError cat.2.2.pyIter
      persistItemsLower content_hash cat.2.1 cat.1 items g) g1

/-! ## Upload processing loop

One uploaded file, as seen by the loop body: its UI filename, the text
produced by the opaque PDF extractor, the opaque LLM-plus-parse outcome for
that text, and whether the store is reachable while this file is persisted. -/

/-- One uploaded file at the loop boundary. -/
structure UploadFile where
  name : String
  text : String
  oracle : Option Json
  storeOk : Bool

/-- Body of the `for file in uploaded_files` loop of `main4.py`, threading
the in-session `processed_files` set (a list of filenames) and the store
state.  An uncaught exception aborts the whole loop, which `foldlM` models
by short-circuiting. -/
def processFile (st : List String × GraphState) (f : UploadFile) :
    Except PyErr (List String × GraphState) :=
  if st.1.contains f.name then .ok st
  else
    let structured := get_structured_data_from_llm f.oracle
    if structured.truthy then do
      let g ← add_candidate_to_neo4j f.storeOk structured f.text st.2
      pure (st.1 ++ [f.name], g)
    else .ok st

/-- The upload processing loop of `main4.py` over a batch of files. -/
def processFiles (files : List UploadFile) (st : List String × GraphState) :
    Except PyErr (List String × GraphState) :=
  files.foldlM processFile st

/-- Body of the upload loop of `with_word_search_only.py`. -/
def processFileVariant (st : List String × GraphState) (f : UploadFile) :
    Except PyErr (List String × GraphState) :=
  if st.1.contains f.name then .ok st
  else
    let structured := get_structured_data_from_llm_variant f.oracle
    if structured.truthy then do
      let g ← add_candidate_to_neo4j_variant f.storeOk structured f.text st.2
      pure (st.1 ++ [f.name], g)
    else .ok st

/-- The upload processing loop of `with_word_search_only.py`. -/
def processFilesVariant (files : List UploadFile) (st : List String × GraphState) :
    Except PyErr (List String × GraphState) :=
  files.foldlM processFileVariant st

/-! ## Multi-skill search (`with_word_search_only.py` Cypher block)

```
MATCH (c:Candidate)-[:HAS_SKILL]->(s:Skill)
WHERE s.name IN $skills
WITH c, COUNT(DISTINCT s.name) AS matchedSkills
WHERE matchedSkills = SIZE($skills)
RETURN DISTINCT c.name AS name, c.content AS content
```
-/

/-- The `s.name` values of all `Skill` nodes a candidate is connected to via
a `HAS_SKILL` relationship. -/
def candidateSkillNames (g : GraphState) (c : CandidateNode) : List Json :=
  (g.attrs.filter (fun a => a.label == "Skill" &&
      g.edges.contains ⟨c.content_hash, "HAS_SKILL", a.label, a.name⟩)).map
    (fun a => a.name)

/-- The distinct `s.name` values among a candidate's `HAS_SKILL`-connected
`Skill` nodes that occur in the query list — the grouped
`COUNT(DISTINCT s.name)` aggregate counts these. -/
def matchedSkillNames (g : GraphState) (skills : List String) (c : CandidateNode) :
    List Json :=
  ((g.attrs.filter (fun a => a.label == "Skill" &&
      skills.any (fun sk => a.name == Json.str sk) &&
      g.edges.contains ⟨c.content_hash, "HAS_SKILL", a.label, a.name⟩)).map
    (fun a => a.name)).dedup

/-- The multi-skill Cypher query of `with_word_search_only.py`: a candidate
contributes a group only if it has at least one matching row, the group
passes when its distinct matched-skill count equals `SIZE($skills)`, and the
returned `(name, content)` rows are deduplicated (`RETURN DISTINCT`). -/
def multiSkillSearch (g : GraphState) (skills : List String) : List (Json × String) :=
  ((g.candidates.filter (fun c =>
      (matchedSkillNames g skills c).length != 0 &&
      (matchedSkillNames g skills c).length == skills.length)).map
    (fun c => (c.name, c.content))).dedup


/-! ## Basic lemmas about the merge primitives -/

@[simp] theorem mergeAttrNode_candidates (g : GraphState) (a : AttrNode) :
    (mergeAttrNode g a).candidates = g.candidates := by
  unfold mergeAttrNode
  split <;> rfl

@[simp] theorem mergeAttrNode_edges (g : GraphState) (a : AttrNode) :
    (mergeAttrNode g a).edges = g.edges := by
  unfold mergeAttrNode
  split <;> rfl

@[simp] theorem mergeEdge_candidates (g : GraphState) (e : GraphEdge) :
    (mergeEdge g e).candidates = g.candidates := by
  unfold mergeEdge
  split <;> rfl

@[simp] theorem mergeEdge_attrs (g : GraphState) (e : GraphEdge) :
    (mergeEdge g e).attrs = g.attrs := by
  unfold mergeEdge
  split <;> rfl

@[simp] theorem mergeCandidate_attrs (g : GraphState) (c : CandidateNode) :
    (mergeCandidate g c).attrs = g.attrs := by
  unfold mergeCandidate
  split <;> rfl

@[simp] theorem mergeCandidate_edges (g : GraphState) (c : CandidateNode) :
    (mergeCandidate g c).edges = g.edges := by
  unfold mergeCandidate
  split <;> rfl

theorem mergeAttrNode_attrs_mono {g : GraphState} {a : AttrNode} (b : AttrNode)
    (h : a ∈ g.attrs) : a ∈ (mergeAttrNode g b).attrs := by
  unfold mergeAttrNode
  split
  · exact h
  · exact List.mem_append_left _ h

theorem mergeEdge_edges_mono {g : GraphState} {e : GraphEdge} (f : GraphEdge)
    (h : e ∈ g.edges) : e ∈ (mergeEdge g f).edges := by
  unfold mergeEdge
  split
  · exact h
  · exact List.mem_append_left _ h

theorem mergeAttrNode_mem_self (g : GraphState) (a : AttrNode) :
    a ∈ (mergeAttrNode g a).attrs := by
  unfold mergeAttrNode
  split
  · next h => exact List.elem_iff.mp h
  · exact List.mem_append_right _ (List.mem_singleton.mpr rfl)

theorem mergeEdge_mem_self (g : GraphState) (e : GraphEdge) :
    e ∈ (mergeEdge g e).edges := by
  unfold mergeEdge
  split
  · next h => exact List.elem_iff.mp h
  · exact List.mem_append_right _ (List.mem_singleton.mpr rfl)

theorem mergeAttrNode_of_mem {g : GraphState} {a : AttrNode} (h : a ∈ g.attrs) :
    mergeAttrNode g a = g := by
  unfold mergeAttrNode
  rw [if_pos (List.elem_iff.mpr h)]

theorem mergeEdge_of_mem {g : GraphState} {e : GraphEdge} (h : e ∈ g.edges) :
    mergeEdge g e = g := by
  unfold mergeEdge
  rw [if_pos (List.elem_iff.mpr h)]

/-- A candidate node is merged in a graph when some stored candidate carries
its `content_hash` key and every stored candidate carrying that key is the
node itself.  This is the state in which a repeated
`graph.merge(candidate, "Candidate", "content_hash")` is a no-op. -/
def candMerged (g : GraphState) (c : CandidateNode) : Prop :=
  (∃ x ∈ g.candidates, x.content_hash = c.content_hash) ∧
    ∀ x ∈ g.candidates, x.content_hash = c.content_hash → x = c

theorem mergeCandidate_candMerged (g : GraphState) (c : CandidateNode) :
    candMerged (mergeCandidate g c) c := by
  unfold mergeCandidate candMerged
  split
  · next h =>
    rw [List.any_eq_true] at h
    obtain ⟨x, hx, hbeq⟩ := h
    constructor
    · refine ⟨c, ?_, rfl⟩
      show c ∈ g.candidates.map _
      rw [List.mem_map]
      exact ⟨x, hx, by simp [hbeq]⟩
    · intro y hy hkey
      replace hy : y ∈ g.candidates.map
          (fun x => if x.content_hash == c.content_hash then c else x) := hy
      rw [List.mem_map] at hy
      obtain ⟨z, hz, hzy⟩ := hy
      by_cases hzc : z.content_hash == c.content_hash
      · simpa [hzc] using hzy.symm
      · rw [if_neg hzc] at hzy
        subst hzy
        exact absurd hkey (by simpa using hzc)
  · next h =>
    constructor
    · exact ⟨c, List.mem_append_right _ (List.mem_singleton.mpr rfl), rfl⟩
    · intro y hy hkey
      replace hy : y ∈ g.candidates ++ [c] := hy
      rcases List.mem_append.mp hy with hy | hy
      · exact absurd (List.any_eq_true.mpr ⟨y, hy, by simp [hkey]⟩) h
      · exact List.mem_singleton.mp hy

theorem mergeCandidate_of_candMerged {g : GraphState} {c : CandidateNode}
    (h : candMerged g c) : mergeCandidate g c = g := by
  obtain ⟨⟨x, hx, hkey⟩, hall⟩ := h
  unfold mergeCandidate
  rw [if_pos (List.any_eq_true.mpr ⟨x, hx, by simp [hkey]⟩)]
  have hmap : g.candidates.map
      (fun y => if y.content_hash == c.content_hash then c else y) = g.candidates := by
    conv_rhs => rw [← List.map_id g.candidates]
    apply List.map_congr_left
    intro a ha
    by_cases hac : a.content_hash == c.content_hash
    · simp only [if_pos hac, id]
      exact (hall a ha (by simpa using hac)).symm
    · simp [hac]
  rw [hmap]

theorem candMerged_mergeAttrNode {g : GraphState} {c : CandidateNode} (a : AttrNode)
    (h : candMerged g c) : candMerged (mergeAttrNode g a) c := by
  unfold candMerged at h ⊢
  rwa [mergeAttrNode_candidates]

theorem candMerged_mergeEdge {g : GraphState} {c : CandidateNode} (e : GraphEdge)
    (h : candMerged g c) : candMerged (mergeEdge g e) c := by
  unfold candMerged at h ⊢
  rwa [mergeEdge_candidates]

/-! ## Lemmas about the category persistence loop -/

/-- The whole five-category loop of `add_candidate_to_neo4j`, on
already-extracted item lists. -/
def persistAll (h : String) (cats : List (String × String × List Json))
    (g : GraphState) : GraphState :=
  cats.foldl (fun g cat => persistItems h cat.2.1 cat.1 cat.2.2 g) g

theorem persistItems_cons (h rel label : String) (x : Json) (items : List Json)
    (g : GraphState) :
    persistItems h rel label (x :: items) g =
      persistItems h rel label items
        (mergeEdge (mergeAttrNode g ⟨label, x⟩) ⟨h, rel, label, x⟩) := rfl

@[simp] theorem persistItems_nil (h rel label : String) (g : GraphState) :
    persistItems h rel label [] g = g := rfl

@[simp] theorem persistItems_candidates (h rel label : String) (items : List Json)
    (g : GraphState) : (persistItems h rel label items g).candidates = g.candidates := by
  induction items generalizing g with
  | nil => rfl
  | cons x items ih => rw [persistItems_cons, ih]; simp

theorem persistItems_attrs_mono (h rel label : String) (items : List Json)
    {g : GraphState} {a : AttrNode} (ha : a ∈ g.attrs) :
    a ∈ (persistItems h rel label items g).attrs := by
  induction items generalizing g with
  | nil => exact ha
  | cons x items ih =>
      rw [persistItems_cons]
      exact ih (by rw [mergeEdge_attrs]; exact mergeAttrNode_attrs_mono _ ha)

theorem persistItems_edges_mono (h rel label : String) (items : List Json)
    {g : GraphState} {e : GraphEdge} (he : e ∈ g.edges) :
    e ∈ (persistItems h rel label items g).edges := by
  induction items generalizing g with
  | nil => exact he
  | cons x items ih =>
      rw [persistItems_cons]
      refine ih (mergeEdge_edges_mono _ ?_)
      rw [mergeAttrNode_edges]
      exact he

theorem persistItems_establishes (h rel label : String) (items : List Json)
    (g : GraphState) {item : Json} (hmem : item ∈ items) :
    (⟨label, item⟩ : AttrNode) ∈ (persistItems h rel label items g).attrs ∧
      (⟨h, rel, label, item⟩ : GraphEdge) ∈ (persistItems h rel label items g).edges := by
  induction items generalizing g with
  | nil => cases hmem
  | cons x items ih =>
      rw [persistItems_cons]
      rcases List.mem_cons.mp hmem with rfl | hmem
      · constructor
        · refine persistItems_attrs_mono _ _ _ _ ?_
          rw [mergeEdge_attrs]
          exact mergeAttrNode_mem_self _ _
        · exact persistItems_edges_mono _ _ _ _ (mergeEdge_mem_self _ _)
      · exact ih _ hmem

theorem persistItems_of_sat (h rel label : String) (items : List Json)
    {g : GraphState}
    (hs : ∀ item ∈ items, (⟨label, item⟩ : AttrNode) ∈ g.attrs ∧
      (⟨h, rel, label, item⟩ : GraphEdge) ∈ g.edges) :
    persistItems h rel label items g = g := by
  induction items with
  | nil => rfl
  | cons x items ih =>
      rw [persistItems_cons]
      obtain ⟨ha, he⟩ := hs x (List.mem_cons_self x items)
      rw [mergeAttrNode_of_mem ha, mergeEdge_of_mem he]
      exact ih (fun item hm => hs item (List.mem_cons_of_mem _ hm))

theorem persistAll_cons (h : String) (cat : String × String × List Json)
    (cats : List (String × String × List Json)) (g : GraphState) :
    persistAll h (cat :: cats) g =
      persistAll h cats (persistItems h cat.2.1 cat.1 cat.2.2 g) := rfl

@[simp] theorem persistAll_nil (h : String) (g : GraphState) :
    persistAll h [] g = g := rfl

@[simp] theorem persistAll_candidates (h : String)
    (cats : List (String × String × List Json)) (g : GraphState) :
    (persistAll h cats g).candidates = g.candidates := by
  induction cats generalizing g with
  | nil => rfl
  | cons cat cats ih => rw [persistAll_cons, ih]; simp

theorem persistAll_attrs_mono (h : String) (cats : List (String × String × List Json))
    {g : GraphState} {a : AttrNode} (ha : a ∈ g.attrs) :
    a ∈ (persistAll h cats g).attrs := by
  induction cats generalizing g with
  | nil => exact ha
  | cons cat cats ih =>
      rw [persistAll_cons]
      exact ih (persistItems_attrs_mono _ _ _ _ ha)

theorem persistAll_edges_mono (h : String) (cats : List (String × String × List Json))
    {g : GraphState} {e : GraphEdge} (he : e ∈ g.edges) :
    e ∈ (persistAll h cats g).edges := by
  induction cats generalizing g with
  | nil => exact he
  | cons cat cats ih =>
      rw [persistAll_cons]
      exact ih (persistItems_edges_mono _ _ _ _ he)

theorem persistAll_establishes (h : String) (cats : List (String × String × List Json))
    (g : GraphState) {cat : String × String × List Json} (hcat : cat ∈ cats)
    {item : Json} (hitem : item ∈ cat.2.2) :
    (⟨cat.1, item⟩ : AttrNode) ∈ (persistAll h cats g).attrs ∧
      (⟨h, cat.2.1, cat.1, item⟩ : GraphEdge) ∈ (persistAll h cats g).edges := by
  induction cats generalizing g with
  | nil => cases hcat
  | cons c cats ih =>
      rw [persistAll_cons]
      rcases List.mem_cons.mp hcat with rfl | hcat
      · obtain ⟨ha, he⟩ := persistItems_establishes h cat.2.1 cat.1 cat.2.2 g hitem
        exact ⟨persistAll_attrs_mono _ _ ha, persistAll_edges_mono _ _ he⟩
      · exact ih _ hcat

theorem persistAll_of_sat (h : String) (cats : List (String × String × List Json))
    {g : GraphState}
    (hs : ∀ cat ∈ cats, ∀ item ∈ cat.2.2,
      (⟨cat.1, item⟩ : AttrNode) ∈ g.attrs ∧
        (⟨h, cat.2.1, cat.1, item⟩ : GraphEdge) ∈ g.edges) :
    persistAll h cats g = g := by
  induction cats with
  | nil => rfl
  | cons c cats ih =>
      rw [persistAll_cons,
        persistItems_of_sat h c.2.1 c.1 c.2.2 (hs c (List.mem_cons_self c cats))]
      exact ih (fun cat hm => hs cat (List.mem_cons_of_mem _ hm))

theorem candMerged_persistItems {g : GraphState} {c : CandidateNode}
    (h rel label : String) (items : List Json) (hc : candMerged g c) :
    candMerged (persistItems h rel label items g) c := by
  unfold candMerged at hc ⊢
  rwa [persistItems_candidates]

theorem candMerged_persistAll {g : GraphState} {c : CandidateNode} (h : String)
    (cats : List (String × String × List Json)) (hc : candMerged g c) :
    candMerged (persistAll h cats g) c := by
  unfold candMerged at hc ⊢
  rwa [persistAll_candidates]

/-- Idempotence of the pure persistence pass: merging the same candidate and
re-running the same category loop on the resulting graph changes nothing. -/
theorem persist_pass_idem (c : CandidateNode)
    (cats : List (String × String × List Json)) (g : GraphState) :
    persistAll c.content_hash cats
        (mergeCandidate (persistAll c.content_hash cats (mergeCandidate g c)) c) =
      persistAll c.content_hash cats (mergeCandidate g c) := by
  set g1 := persistAll c.content_hash cats (mergeCandidate g c) with hg1
  have hcm : candMerged g1 c :=
    candMerged_persistAll _ _ (mergeCandidate_candMerged g c)
  rw [mergeCandidate_of_candMerged hcm]
  exact persistAll_of_sat _ _ (fun cat hcat item hitem =>
    persistAll_establishes _ _ _ hcat hitem)

/-! ## Success-shape lemmas for `add_candidate_to_neo4j` -/

/-- Value of `data.get(key, [])` on a dict. -/
def catVal (fs : List (String × Json)) (key : String) : Json :=
  (fs.lookup key).getD (.arr [])

/-- Value of `data.get("name", "Unknown")` on a dict. -/
def nameVal (fs : List (String × Json)) : Json :=
  (fs.lookup "name").getD (.str "Unknown")

theorem add_candidate_obj_ok (fs : List (String × Json)) (t : String) (g : GraphState)
    (sk ed pr ex ce : List Json)
    (h1 : (catVal fs "skills").pyIter = some sk)
    (h2 : (catVal fs "education").pyIter = some ed)
    (h3 : (catVal fs "projects").pyIter = some pr)
    (h4 : (catVal fs "experience").pyIter = some ex)
    (h5 : (catVal fs "certifications").pyIter = some ce) :
    add_candidate_to_neo4j true (.obj fs) t g =
      .ok (persistAll (get_pdf_hash t)
        [("Skill", "HAS_SKILL", sk), ("Education", "HAS_EDUCATION", ed),
         ("Project", "HAS_PROJECT", pr), ("Experience", "HAS_EXPERIENCE", ex),
         ("Certification", "HAS_CERTIFICATION", ce)]
        (mergeCandidate g ⟨nameVal fs, t, get_pdf_hash t⟩)) := by
  unfold add_candidate_to_neo4j
  unfold catVal at h1 h2 h3 h4 h5
  simp [Json.dictGet, exOfOption, h1, h2, h3, h4, h5, nameVal, List.foldlM,
    persistAll, persistItems, bind, Except.bind, pure, Except.pure]

theorem add_candidate_not_obj {so : Bool} {data : Json} {t : String} {g : GraphState}
    (hno : ∀ fs, data ≠ .obj fs) :
    add_candidate_to_neo4j so data t g = .error .attributeError := by
  cases data <;>
    simp [add_candidate_to_neo4j, Json.dictGet, exOfOption, bind, Except.bind]
  exact absurd rfl (hno _)

theorem add_candidate_ok_inv {so : Bool} {data : Json} {t : String} {g g' : GraphState}
    (h : add_candidate_to_neo4j so data t g = .ok g') :
    so = true ∧ ∃ fs sk ed pr ex ce, data = .obj fs ∧
      (catVal fs "skills").pyIter = some sk ∧
      (catVal fs "education").pyIter = some ed ∧
      (catVal fs "projects").pyIter = some pr ∧
      (catVal fs "experience").pyIter = some ex ∧
      (catVal fs "certifications").pyIter = some ce ∧
      g' = persistAll (get_pdf_hash t)
        [("Skill", "HAS_SKILL", sk), ("Education", "HAS_EDUCATION", ed),
         ("Project", "HAS_PROJECT", pr), ("Experience", "HAS_EXPERIENCE", ex),
         ("Certification", "HAS_CERTIFICATION", ce)]
        (mergeCandidate g ⟨nameVal fs, t, get_pdf_hash t⟩) := by
  obtain ⟨fs, rfl⟩ : ∃ fs, data = .obj fs := by
    by_contra hno
    push_neg at hno
    rw [add_candidate_not_obj hno] at h
    cases h
  cases so with
  | false =>
      exfalso
      unfold add_candidate_to_neo4j at h
      simp [Json.dictGet, exOfOption, bind, Except.bind] at h
  | true =>
      refine ⟨rfl, fs, ?_⟩
      cases h1 : (catVal fs "skills").pyIter with
      | none =>
          exfalso
          unfold add_candidate_to_neo4j at h
          unfold catVal at h1
          simp [Json.dictGet, exOfOption, bind, Except.bind, pure, Except.pure, List.foldlM, h1] at h
      | some sk =>
      cases h2 : (catVal fs "education").pyIter with
      | none =>
          exfalso
          unfold add_candidate_to_neo4j at h
          unfold catVal at h1 h2
          simp [Json.dictGet, exOfOption, bind, Except.bind, pure, Except.pure, List.foldlM, h1, h2] at h
      | some ed =>
      cases h3 : (catVal fs "projects").pyIter with
      | none =>
          exfalso
          unfold add_candidate_to_neo4j at h
          unfold catVal at h1 h2 h3
          simp [Json.dictGet, exOfOption, bind, Except.bind, pure, Except.pure, List.foldlM, h1, h2, h3] at h
      | some pr =>
      cases h4 : (catVal fs "experience").pyIter with
      | none =>
          exfalso
          unfold add_candidate_to_neo4j at h
          unfold catVal at h1 h2 h3 h4
          simp [Json.dictGet, exOfOption, bind, Except.bind, pure, Except.pure, List.foldlM, h1, h2, h3, h4] at h
      | some ex =>
      cases h5 : (catVal fs "certifications").pyIter with
      | none =>
          exfalso
          unfold add_candidate_to_neo4j at h
          unfold catVal at h1 h2 h3 h4 h5
          simp [Json.dictGet, exOfOption, bind, Except.bind, pure, Except.pure,
            List.foldlM, h1, h2, h3, h4, h5] at h
      | some ce =>
          rw [add_candidate_obj_ok fs t g sk ed pr ex ce h1 h2 h3 h4 h5] at h
          exact ⟨sk, ed, pr, ex, ce, rfl, rfl, rfl, rfl, rfl, rfl, (Except.ok.inj h).symm⟩

theorem persistItemsLower_ok (h rel label : String) (items lows : List Json)
    (hm : lowerAll items = some lows) (g : GraphState) :
    persistItemsLower h rel label items g = .ok (persistItems h rel label lows g) := by
  unfold persistItemsLower
  induction items generalizing lows g with
  | nil =>
      simp only [lowerAll, Option.some.injEq] at hm
      subst hm
      rfl
  | cons x items ih =>
      unfold lowerAll at hm
      cases hx : x.pyLower with
      | none => rw [hx] at hm; cases hm
      | some low =>
          rw [hx] at hm
          cases hrest : lowerAll items with
          | none => rw [hrest] at hm; cases hm
          | some lowsRest =>
              rw [hrest] at hm
              simp only [Option.some.injEq] at hm
              subst hm
              rw [List.foldlM_cons]
              simp only [hx, exOfOption, bind, Except.bind, pure, Except.pure]
              rw [persistItems_cons]
              exact ih _ hrest _

theorem persistItemsLower_err (h rel label : String) (items : List Json)
    (hm : lowerAll items = none) (g : GraphState) :
    persistItemsLower h rel label items g = .error .attributeError := by
  unfold persistItemsLower
  induction items generalizing g with
  | nil => cases hm
  | cons x items ih =>
      unfold lowerAll at hm
      cases hx : x.pyLower with
      | none =>
          rw [List.foldlM_cons]
          simp [hx, exOfOption, bind, Except.bind]
      | some low =>
          rw [hx] at hm
          cases hrest : lowerAll items with
          | none =>
              rw [List.foldlM_cons]
              simp only [hx, exOfOption, bind, Except.bind, pure, Except.pure]
              exact ih hrest _
          | some lowsRest => rw [hrest] at hm; cases hm

theorem add_candidate_variant_obj_ok (fs : List (String × Json)) (t : String)
    (g : GraphState) (nm : Json) (sk ed pr ex ce skl edl prl exl cel : List Json)
    (hn : (nameVal fs).pyLower = some nm)
    (h1 : (catVal fs "skills").pyIter = some sk) (l1 : lowerAll sk = some skl)
    (h2 : (catVal fs "education").pyIter = some ed) (l2 : lowerAll ed = some edl)
    (h3 : (catVal fs "projects").pyIter = some pr) (l3 : lowerAll pr = some prl)
    (h4 : (catVal fs "experience").pyIter = some ex) (l4 : lowerAll ex = some exl)
    (h5 : (catVal fs "certifications").pyIter = some ce) (l5 : lowerAll ce = some cel) :
    add_candidate_to_neo4j_variant true (.obj fs) t g =
      .ok (persistAll (get_pdf_hash t)
        [("Skill", "HAS_SKILL", skl), ("Education", "HAS_EDUCATION", edl),
         ("Project", "HAS_PROJECT", prl), ("Experience", "HAS_EXPERIENCE", exl),
         ("Certification", "HAS_CERTIFICATION", cel)]
        (mergeCandidate g ⟨nm, t, get_pdf_hash t⟩)) := by
  unfold add_candidate_to_neo4j_variant
  unfold catVal at h1 h2 h3 h4 h5
  unfold nameVal at hn
  simp [Json.dictGet, exOfOption, hn, h1, h2, h3, h4, h5, List.foldlM,
    bind, Except.bind, pure, Except.pure,
    persistItemsLower_ok _ _ _ _ _ l1, persistItemsLower_ok _ _ _ _ _ l2,
    persistItemsLower_ok _ _ _ _ _ l3, persistItemsLower_ok _ _ _ _ _ l4,
    persistItemsLower_ok _ _ _ _ _ l5, persistAll]

theorem add_candidate_variant_not_obj {so : Bool} {data : Json} {t : String}
    {g : GraphState} (hno : ∀ fs, data ≠ .obj fs) :
    add_candidate_to_neo4j_variant so data t g = .error .attributeError := by
  cases data <;>
    simp [add_candidate_to_neo4j_variant, Json.dictGet, exOfOption, bind,
      Except.bind, Option.bind]
  exact absurd rfl (hno _)

theorem add_candidate_variant_ok_inv {so : Bool} {data : Json} {t : String}
    {g g' : GraphState}
    (h : add_candidate_to_neo4j_variant so data t g = .ok g') :
    so = true ∧ ∃ fs nm sk skl ed edl pr prl ex exl ce cel, data = .obj fs ∧
      (nameVal fs).pyLower = some nm ∧
      (catVal fs "skills").pyIter = some sk ∧ lowerAll sk = some skl ∧
      (catVal fs "education").pyIter = some ed ∧ lowerAll ed = some edl ∧
      (catVal fs "projects").pyIter = some pr ∧ lowerAll pr = some prl ∧
      (catVal fs "experience").pyIter = some ex ∧ lowerAll ex = some exl ∧
      (catVal fs "certifications").pyIter = some ce ∧ lowerAll ce = some cel ∧
      g' = persistAll (get_pdf_hash t)
        [("Skill", "HAS_SKILL", skl), ("Education", "HAS_EDUCATION", edl),
         ("Project", "HAS_PROJECT", prl), ("Experience", "HAS_EXPERIENCE", exl),
         ("Certification", "HAS_CERTIFICATION", cel)]
        (mergeCandidate g ⟨nm, t, get_pdf_hash t⟩) := by
  obtain ⟨fs, rfl⟩ : ∃ fs, data = .obj fs := by
    by_contra hno
    push_neg at hno
    rw [add_candidate_variant_not_obj hno] at h
    cases h
  have herr : ∀ (e : PyErr),
      add_candidate_to_neo4j_variant so (.obj fs) t g = .error e → False := by
    intro e he
    rw [he] at h
    cases h
  cases hn : (nameVal fs).pyLower with
  | none =>
      exfalso
      unfold add_candidate_to_neo4j_variant at h
      unfold nameVal at hn
      simp [Json.dictGet, exOfOption, Option.bind, hn, bind, Except.bind] at h
  | some nm =>
  cases so with
  | false =>
      exfalso
      unfold add_candidate_to_neo4j_variant at h
      unfold nameVal at hn
      simp [Json.dictGet, exOfOption, Option.bind, hn, bind, Except.bind,
        pure, Except.pure] at h
  | true =>
  refine ⟨rfl, fs, ?_⟩
  cases h1 : (catVal fs "skills").pyIter with
  | none =>
      exfalso
      unfold add_candidate_to_neo4j_variant at h
      unfold nameVal at hn
      unfold catVal at h1
      simp [Json.dictGet, exOfOption, Option.bind, hn, h1, bind, Except.bind,
        pure, Except.pure, List.foldlM] at h
  | some sk =>
  cases l1 : lowerAll sk with
  | none =>
      exfalso
      unfold add_candidate_to_neo4j_variant at h
      unfold nameVal at hn
      unfold catVal at h1
      simp [Json.dictGet, exOfOption, Option.bind, hn, h1, bind, Except.bind,
        pure, Except.pure, List.foldlM, persistItemsLower_err _ _ _ _ l1] at h
  | some skl =>
  cases h2 : (catVal fs "education").pyIter with
  | none =>
      exfalso
      unfold add_candidate_to_neo4j_variant at h
      unfold nameVal at hn
      unfold catVal at h1 h2
      simp [Json.dictGet, exOfOption, Option.bind, hn, h1, h2, bind, Except.bind,
        pure, Except.pure, List.foldlM, persistItemsLower_ok _ _ _ _ _ l1] at h
  | some ed =>
  cases l2 : lowerAll ed with
  | none =>
      exfalso
      unfold add_candidate_to_neo4j_variant at h
      unfold nameVal at hn
      unfold catVal at h1 h2
      simp [Json.dictGet, exOfOption, Option.bind, hn, h1, h2, bind, Except.bind,
        pure, Except.pure, List.foldlM, persistItemsLower_ok _ _ _ _ _ l1,
        persistItemsLower_err _ _ _ _ l2] at h
  | some edl =>
  cases h3 : (catVal fs "projects").pyIter with
  | none =>
      exfalso
      unfold add_candidate_to_neo4j_variant at h
      unfold nameVal at hn
      unfold catVal at h1 h2 h3
      simp [Json.dictGet, exOfOption, Option.bind, hn, h1, h2, h3, bind, Except.bind,
        pure, Except.pure, List.foldlM, persistItemsLower_ok _ _ _ _ _ l1,
        persistItemsLower_ok _ _ _ _ _ l2] at h
  | some pr =>
  cases l3 : lowerAll pr with
  | none =>
      exfalso
      unfold add_candidate_to_neo4j_variant at h
      unfold nameVal at hn
      unfold catVal at h1 h2 h3
      simp [Json.dictGet, exOfOption, Option.bind, hn, h1, h2, h3, bind, Except.bind,
        pure, Except.pure, List.foldlM, persistItemsLower_ok _ _ _ _ _ l1,
        persistItemsLower_ok _ _ _ _ _ l2, persistItemsLower_err _ _ _ _ l3] at h
  | some prl =>
  cases h4 : (catVal fs "experience").pyIter with
  | none =>
      exfalso
      unfold add_candidate_to_neo4j_variant at h
      unfold nameVal at hn
      unfold catVal at h1 h2 h3 h4
      simp [Json.dictGet, exOfOption, Option.bind, hn, h1, h2, h3, h4, bind,
        Except.bind, pure, Except.pure, List.foldlM, persistItemsLower_ok _ _ _ _ _ l1,
        persistItemsLower_ok _ _ _ _ _ l2, persistItemsLower_ok _ _ _ _ _ l3] at h
  | some ex =>
  cases l4 : lowerAll ex with
  | none =>
      exfalso
      unfold add_candidate_to_neo4j_variant at h
      unfold nameVal at hn
      unfold catVal at h1 h2 h3 h4
      simp [Json.dictGet, exOfOption, Option.bind, hn, h1, h2, h3, h4, bind,
        Except.bind, pure, Except.pure, List.foldlM, persistItemsLower_ok _ _ _ _ _ l1,
        persistItemsLower_ok _ _ _ _ _ l2, persistItemsLower_ok _ _ _ _ _ l3,
        persistItemsLower_err _ _ _ _ l4] at h
  | some exl =>
  cases h5 : (catVal fs "certifications").pyIter with
  | none =>
      exfalso
      unfold add_candidate_to_neo4j_variant at h
      unfold nameVal at hn
      unfold catVal at h1 h2 h3 h4 h5
      simp [Json.dictGet, exOfOption, Option.bind, hn, h1, h2, h3, h4, h5, bind,
        Except.bind, pure, Except.pure, List.foldlM, persistItemsLower_ok _ _ _ _ _ l1,
        persistItemsLower_ok _ _ _ _ _ l2, persistItemsLower_ok _ _ _ _ _ l3,
        persistItemsLower_ok _ _ _ _ _ l4] at h
  | some ce =>
  cases l5 : lowerAll ce with
  | none =>
      exfalso
      unfold add_candidate_to_neo4j_variant at h
      unfold nameVal at hn
      unfold catVal at h1 h2 h3 h4 h5
      simp [Json.dictGet, exOfOption, Option.bind, hn, h1, h2, h3, h4, h5, bind,
        Except.bind, pure, Except.pure, List.foldlM, persistItemsLower_ok _ _ _ _ _ l1,
        persistItemsLower_ok _ _ _ _ _ l2, persistItemsLower_ok _ _ _ _ _ l3,
        persistItemsLower_ok _ _ _ _ _ l4, persistItemsLower_err _ _ _ _ l5] at h
  | some cel =>
      rw [add_candidate_variant_obj_ok fs t g nm sk ed pr ex ce skl edl prl exl cel
        hn h1 l1 h2 l2 h3 l3 h4 l4 h5 l5] at h
      exact ⟨nm, sk, skl, ed, edl, pr, prl, ex, exl, ce, cel, rfl, hn, rfl, l1,
        rfl, l2, rfl, l3, rfl, l4, rfl, l5, (Except.ok.inj h).symm⟩

/-! ## Worked example data

Two uploads whose oracle outcomes give candidate Alice skills Python and SQL,
and candidate Bob the single skill Python - the scenario named by the spec's
testable properties. -/

/-- Parsed oracle response for Alice. -/
def oracleA : Json :=
  .obj [("name", .str "Alice"), ("skills", .arr [.str "Python", .str "SQL"])]

/-- Parsed oracle response for Bob. -/
def oracleB : Json :=
  .obj [("name", .str "Bob"), ("skills", .arr [.str "Python"])]

/-- Alice's upload. -/
def fileA : UploadFile := ⟨"a.pdf", "resume text of alice", some oracleA, true⟩

/-- Bob's upload. -/
def fileB : UploadFile := ⟨"b.pdf", "resume text of bob", some oracleB, true⟩

/-- The store state after the variant pipeline ingests Alice's and Bob's
uploads into an empty store. -/
def demoGraph : GraphState :=
  match processFilesVariant [fileA, fileB] ([], GraphState.empty) with
  | .ok st => st.2
  | .error _ => GraphState.empty

/-! ## Claim C3 -/

/-- C3: for every uploaded document whose oracle outcome is a failure (the
LLM call raised or its response was not parseable as JSON), extraction
returns the empty dict (no profile), which is falsy, so the caller's
`if structured_data:` guard skips persistence: the loop state (processed
set and graph) is unchanged, no Candidate node is created, and processing
simply continues with the remaining files - no retry, no abort. -/
theorem claim_C3 (f : UploadFile) (hf : f.oracle = none) :
    get_structured_data_from_llm f.oracle = .obj [] ∧
    (get_structured_data_from_llm f.oracle).truthy = false ∧
    (∀ st, processFile st f = .ok st) ∧
    (∀ files st, processFiles (f :: files) st = processFiles files st) := by
  have hpf : ∀ st, processFile st f = .ok st := by
    intro st
    unfold processFile
    rw [hf]
    split
    · rfl
    · simp [get_structured_data_from_llm, Json.truthy]
  refine ⟨by rw [hf]; rfl, by rw [hf]; rfl, hpf, ?_⟩
  intro files st
  unfold processFiles
  rw [List.foldlM_cons, hpf st]
  rfl

/-- Witness for C3 at a concrete failed-oracle upload. -/
theorem claim_C3_witness :
    get_structured_data_from_llm (UploadFile.mk "r.pdf" "txt" none true).oracle
        = .obj [] ∧
      processFiles [⟨"r.pdf", "txt", none, true⟩, fileB] ([], GraphState.empty)
        = processFiles [fileB] ([], GraphState.empty) := by
  obtain ⟨h1, _, _, h4⟩ := claim_C3 ⟨"r.pdf", "txt", none, true⟩ rfl
  exact ⟨h1, h4 [fileB] ([], GraphState.empty)⟩

/-! ## Claim C8 -/

/-- C8: the in-session already-processed check is keyed by filename, not
content.  First conjunct pair: in both variants, a file whose name is in the
processed set is skipped (state unchanged), whatever its text and oracle
outcome - in particular even if its content differs from the file that put
the name there.  Second conjunct pair: a file whose name is not yet in the
set is extracted and upserted (the state gains the filename and the upserted
graph), with no condition on the graph - in particular even when a candidate
with the same content hash is already stored. -/
theorem claim_C8 :
    (∀ (st : List String × GraphState) (f : UploadFile),
        st.1.contains f.name = true → processFile st f = .ok st) ∧
    (∀ (st : List String × GraphState) (f : UploadFile),
        st.1.contains f.name = true → processFileVariant st f = .ok st) ∧
    (∀ (processed : List String) (g g' : GraphState) (f : UploadFile),
        processed.contains f.name = false →
        (get_structured_data_from_llm f.oracle).truthy = true →
        add_candidate_to_neo4j f.storeOk (get_structured_data_from_llm f.oracle)
            f.text g = .ok g' →
        processFile (processed, g) f = .ok (processed ++ [f.name], g')) ∧
    (∀ (processed : List String) (g g' : GraphState) (f : UploadFile),
        processed.contains f.name = false →
        (get_structured_data_from_llm_variant f.oracle).truthy = true →
        add_candidate_to_neo4j_variant f.storeOk
            (get_structured_data_from_llm_variant f.oracle) f.text g = .ok g' →
        processFileVariant (processed, g) f = .ok (processed ++ [f.name], g')) := by
  refine ⟨?_, ?_, ?_, ?_⟩
  · intro st f hmem
    unfold processFile
    rw [if_pos hmem]
  · intro st f hmem
    unfold processFileVariant
    rw [if_pos hmem]
  · intro processed g g' f hmem htr hadd
    unfold processFile
    simp only [hmem, Bool.false_eq_true, if_false, htr, if_true, hadd, bind,
      Except.bind, pure, Except.pure]
  · intro processed g g' f hmem htr hadd
    unfold processFileVariant
    simp only [hmem, Bool.false_eq_true, if_false, htr, if_true, hadd, bind,
      Except.bind, pure, Except.pure]

set_option maxRecDepth 40000 in
/-- Witness for C8: the file `a.pdf` re-uploaded with different text and a
different oracle outcome is skipped once `"a.pdf"` is in the processed set;
Bob's upload under a fresh name is upserted even though its text is already
stored in the graph it is upserted into. -/
theorem claim_C8_witness :
    processFile (["a.pdf"], GraphState.empty)
        ⟨"a.pdf", "totally different text", some oracleB, true⟩
      = .ok (["a.pdf"], GraphState.empty) ∧
    processFile ([], demoGraph) fileB
      = .ok (["b.pdf"],
          (add_candidate_to_neo4j true oracleB "resume text of bob" demoGraph).toOption.getD
            GraphState.empty) := by
  constructor
  · exact claim_C8.1 (["a.pdf"], GraphState.empty)
      ⟨"a.pdf", "totally different text", some oracleB, true⟩ (by decide)
  · have h := claim_C8.2.2.1 [] demoGraph
      ((add_candidate_to_neo4j true oracleB "resume text of bob" demoGraph).toOption.getD
        GraphState.empty)
      fileB (by decide) (by decide) (by rfl)
    simpa using h

/-! ## Claim C9 -/

theorem add_candidate_storeDown (data : Json) (t : String) (g : GraphState) :
    ∃ e, add_candidate_to_neo4j false data t g = .error e := by
  by_cases hobj : ∃ fs, data = .obj fs
  · obtain ⟨fs, rfl⟩ := hobj
    refine ⟨.storeWriteError, ?_⟩
    unfold add_candidate_to_neo4j
    simp [Json.dictGet, exOfOption, bind, Except.bind]
  · push_neg at hobj
    exact ⟨.attributeError, add_candidate_not_obj hobj⟩

/-- C9 counterexample: a two-file batch in which the store is unreachable
while the first file is persisted.  The whole loop aborts with the uncaught
store write error and the second file is never processed, although the same
second file alone is processed fine - contradicting the claim that every
failure is scoped to its document and processing of the remaining documents
continues. -/
theorem claim_C9_counterexample :
    processFiles [⟨"x.pdf", "some resume text", some oracleA, false⟩, fileB]
        ([], GraphState.empty) = .error .storeWriteError ∧
    processFiles [fileB] ([], GraphState.empty)
      = .ok (["b.pdf"],
          ⟨[⟨.str "Bob", "resume text of bob", get_pdf_hash "resume text of bob"⟩],
           [⟨"Skill", .str "Python"⟩],
           [⟨get_pdf_hash "resume text of bob", "HAS_SKILL", "Skill", .str "Python"⟩]⟩) := by
  constructor
  · rfl
  · rfl

/-- C9 as amended: oracle-call and JSON-parse failures are caught by the
`try`/`except` and are scoped to their document (the loop continues with the
remaining files and unchanged state), but a failure inside
`add_candidate_to_neo4j` - a store write error, or a type error when the
parsed truthy JSON is not an object - is uncaught and aborts the whole
batch, leaving every remaining document unprocessed. -/
theorem claim_C9_amended :
    (∀ (f : UploadFile) (files : List UploadFile) (st : List String × GraphState),
        f.oracle = none → processFiles (f :: files) st = processFiles files st) ∧
    (∀ (f : UploadFile) (files : List UploadFile) (st : List String × GraphState),
        st.1.contains f.name = false → f.storeOk = false →
        (get_structured_data_from_llm f.oracle).truthy = true →
        ∃ e, processFiles (f :: files) st = .error e) := by
  constructor
  · intro f files st hf
    have hpf : processFile st f = .ok st := by
      unfold processFile
      rw [hf]
      split
      · rfl
      · simp [get_structured_data_from_llm, Json.truthy]
    unfold processFiles
    rw [List.foldlM_cons, hpf]
    rfl
  · intro f files st hmem hso htr
    obtain ⟨e, he⟩ := add_candidate_storeDown
      (get_structured_data_from_llm f.oracle) f.text st.2
    refine ⟨e, ?_⟩
    have hpf : processFile st f = .error e := by
      unfold processFile
      rw [← hso] at he
      simp only [hmem, Bool.false_eq_true, if_false, htr, if_true, he, bind,
        Except.bind]
    unfold processFiles
    rw [List.foldlM_cons, hpf]
    rfl

/-- Witness for C9 as amended, at a failed-oracle upload and at a
store-down upload. -/
theorem claim_C9_amended_witness :
    processFiles [⟨"r.pdf", "txt", none, true⟩, fileB] ([], GraphState.empty)
        = processFiles [fileB] ([], GraphState.empty) ∧
    ∃ e, processFiles [⟨"x.pdf", "some resume text", some oracleA, false⟩, fileB]
        ([], GraphState.empty) = .error e := by
  exact ⟨claim_C9_amended.1 ⟨"r.pdf", "txt", none, true⟩ [fileB] ([], GraphState.empty) rfl,
    claim_C9_amended.2 ⟨"x.pdf", "some resume text", some oracleA, false⟩ [fileB]
      ([], GraphState.empty) (by decide) rfl (by decide)⟩

/-! ## Claim C4 -/

/-- C4 counterexample: the oracle response `{}` parses as a JSON object with
all fields missing, yet in `main4.py` extraction returns it unchanged, the
empty dict is falsy, and the document is skipped with no Candidate node
persisted - the claim says it would still be persisted (with name
"Unknown"). -/
theorem claim_C4_counterexample :
    get_structured_data_from_llm (some (Json.obj [])) = Json.obj [] ∧
    (get_structured_data_from_llm (some (Json.obj []))).truthy = false ∧
    processFiles [⟨"r.pdf", "resume text r", some (Json.obj []), true⟩]
        ([], GraphState.empty) = .ok ([], GraphState.empty) :=
  ⟨rfl, rfl, rfl⟩

/-- C4 as amended: missing fields are defaulted, but differently in the two
files.  In `main4.py` the defaults (`"Unknown"` for name, `[]` for list
fields) are applied only at persist time by `add_candidate_to_neo4j`'s
`.get` calls, extraction returns the parsed object unchanged, and the
all-fields-missing response `{}` is falsy, so that document is skipped like
a failure and no Candidate node is created.  In the variant the extractor
itself applies the defaults and lower-cases them, so a parseable object
response with all six fields missing yields the truthy profile with name
`"unknown"` (not `"Unknown"`) and empty lists, which is persisted as a
Candidate node with no attribute nodes or edges. -/
theorem claim_C4_amended :
    (∀ fs : List (String × Json), fs.lookup "name" = none →
        nameVal fs = .str "Unknown") ∧
    (∀ (fs : List (String × Json)) (key : String), fs.lookup key = none →
        catVal fs key = .arr []) ∧
    (∀ fs : List (String × Json),
        fs.lookup "name" = none → fs.lookup "skills" = none →
        fs.lookup "education" = none → fs.lookup "projects" = none →
        fs.lookup "experience" = none → fs.lookup "certifications" = none →
        lowerProfileJson (.obj fs) =
          some (.obj [("name", .str "unknown"), ("skills", .arr []),
            ("education", .arr []), ("projects", .arr []),
            ("experience", .arr []), ("certifications", .arr [])])) ∧
    (get_structured_data_from_llm_variant (some (.obj []))).truthy = true ∧
    processFilesVariant [⟨"r.pdf", "resume text r", some (Json.obj []), true⟩]
        ([], GraphState.empty)
      = .ok (["r.pdf"],
          ⟨[⟨.str "unknown", "resume text r", get_pdf_hash "resume text r"⟩], [], []⟩) ∧
    processFiles [⟨"r.pdf", "resume text r", some (Json.obj []), true⟩]
        ([], GraphState.empty) = .ok ([], GraphState.empty) := by
  refine ⟨?_, ?_, ?_, rfl, rfl, rfl⟩
  · intro fs h
    unfold nameVal
    rw [h]
    rfl
  · intro fs key h
    unfold catVal
    rw [h]
    rfl
  · intro fs h1 h2 h3 h4 h5 h6
    unfold lowerProfileJson
    simp [Json.dictGet, h1, h2, h3, h4, h5, h6, bind, Option.bind, lowerListField,
      Json.pyIter, Json.pyLower, lowerAll, pure]
    decide

/-- Witness for C4 as amended, at the empty field list. -/
theorem claim_C4_amended_witness :
    nameVal [] = .str "Unknown" ∧ catVal [] "skills" = .arr [] ∧
    lowerProfileJson (.obj []) =
      some (.obj [("name", .str "unknown"), ("skills", .arr []),
        ("education", .arr []), ("projects", .arr []),
        ("experience", .arr []), ("certifications", .arr [])]) :=
  ⟨claim_C4_amended.1 [] rfl, claim_C4_amended.2.1 [] "skills" rfl,
    claim_C4_amended.2.2.1 [] rfl rfl rfl rfl rfl rfl⟩

/-! ## Claim C10 -/

/-- C10 counterexample: the parseable response whose `skills` field is a
JSON object - not a sequence - does not make the variant's extractor fail:
Python iterates the dict over its keys, so extraction succeeds with
`skills = ["a"]` (and defaulted name `"unknown"`), where the claim says the
failure result is returned whenever a list field is not a sequence. -/
theorem claim_C10_counterexample :
    get_structured_data_from_llm_variant
        (some (.obj [("skills", .obj [("a", .num 1)])]))
      = .obj [("name", .str "unknown"), ("skills", .arr [.str "a"]),
          ("education", .arr []), ("projects", .arr []),
          ("experience", .arr []), ("certifications", .arr [])] ∧
    (get_structured_data_from_llm_variant
        (some (.obj [("skills", .obj [("a", .num 1)])]))).truthy = true :=
  ⟨rfl, rfl⟩

theorem pyLower_eq_none {v : Json} (h : ∀ s, v ≠ .str s) : v.pyLower = none := by
  cases v <;> simp [Json.pyLower]
  exact absurd rfl (h _)

theorem lowerAll_none_of_mem {xs : List Json} {x : Json} (hx : x ∈ xs)
    (hl : x.pyLower = none) : lowerAll xs = none := by
  induction xs with
  | nil => cases hx
  | cons y ys ih =>
      rcases List.mem_cons.mp hx with rfl | hx
      · unfold lowerAll
        rw [hl]
      · unfold lowerAll
        rw [ih hx]
        cases y.pyLower <;> rfl

theorem lowerProfileJson_none_of_skills (fs : List (String × Json))
    (hsk : lowerListField ((fs.lookup "skills").getD (.arr [])) = none) :
    lowerProfileJson (.obj fs) = none := by
  unfold lowerProfileJson
  cases hn : ((fs.lookup "name").getD (.str "Unknown")).pyLower with
  | none => simp [Json.dictGet, hn, bind, Option.bind]
  | some nm => simp [Json.dictGet, hn, hsk, bind, Option.bind]

/-- C10 as amended: the variant's extractor returns the failure result (the
empty dict, so the document is skipped) not only for an unparseable
response but also, because the lower-casing pass raises inside the guarded
block, whenever the parsed object's `name` field is present and not a
string, whenever a list field is present and not iterable (a number, a
boolean or null), and whenever an array-valued list field contains a
non-string element - shown here for the `skills` field, whose handling is
syntactically identical to the other four list fields.  A string-valued
list field, however, iterates over its characters, and an object-valued
list field over its keys; both succeed, so the extractor is strictly
stricter than JSON parseability but not as strict as the wrong-type wording
states. -/
theorem claim_C10_amended :
    (∀ (fs : List (String × Json)) (v : Json), fs.lookup "name" = some v →
        (∀ s, v ≠ .str s) →
        get_structured_data_from_llm_variant (some (.obj fs)) = .obj []) ∧
    (∀ (fs : List (String × Json)) (v : Json), fs.lookup "skills" = some v →
        v.pyIter = none →
        get_structured_data_from_llm_variant (some (.obj fs)) = .obj []) ∧
    (∀ (fs : List (String × Json)) (xs : List Json) (x : Json),
        fs.lookup "skills" = some (.arr xs) → x ∈ xs → (∀ s, x ≠ .str s) →
        get_structured_data_from_llm_variant (some (.obj fs)) = .obj []) ∧
    (get_structured_data_from_llm_variant (some (.obj [("name", .num 3)]))
        = .obj []) ∧
    (get_structured_data_from_llm_variant (some (.obj [("skills", .str "Py")]))
      = .obj [("name", .str "unknown"), ("skills", .arr [.str "p", .str "y"]),
          ("education", .arr []), ("projects", .arr []),
          ("experience", .arr []), ("certifications", .arr [])]) := by
  refine ⟨?_, ?_, ?_, rfl, rfl⟩
  · intro fs v hv hns
    unfold get_structured_data_from_llm_variant lowerProfileJson
    simp [Json.dictGet, hv, pyLower_eq_none hns, bind, Option.bind]
  · intro fs v hv hit
    have hnone := lowerProfileJson_none_of_skills fs
      (by rw [hv]; simp [lowerListField, hit])
    simp [get_structured_data_from_llm_variant, hnone]
  · intro fs xs x hv hx hns
    have hnone := lowerProfileJson_none_of_skills fs (by
      rw [hv]
      simp [lowerListField, Json.pyIter, bind, Option.bind,
        lowerAll_none_of_mem hx (pyLower_eq_none hns)])
    simp [get_structured_data_from_llm_variant, hnone]

/-- Witness for C10 as amended, at concrete wrong-typed fields. -/
theorem claim_C10_amended_witness :
    get_structured_data_from_llm_variant (some (.obj [("name", .bool true)]))
        = .obj [] ∧
    get_structured_data_from_llm_variant (some (.obj [("skills", .num 7)]))
        = .obj [] ∧
    get_structured_data_from_llm_variant
        (some (.obj [("skills", .arr [.str "ok", .num 2])])) = .obj [] := by
  refine ⟨?_, ?_, ?_⟩
  · exact claim_C10_amended.1 [("name", .bool true)] (.bool true) rfl
      (fun s => by simp)
  · exact claim_C10_amended.2.1 [("skills", .num 7)] (.num 7) rfl rfl
  · exact claim_C10_amended.2.2.1 [("skills", .arr [.str "ok", .num 2])]
      [.str "ok", .num 2] (.num 2) rfl (by simp) (fun s => by simp)

/-! ## Claim C2 -/

/-- C2: upsert is idempotent in both files.  If `add_candidate_to_neo4j`
maps graph state `g` to `g'` for a given parsed profile and resume text,
then running it again with the same arguments on `g'` succeeds and returns
`g'` unchanged - the same nodes, the same edges, hence the same node and
edge counts, with no duplicate Candidate node, attribute node or
relationship created by the second call. -/
theorem claim_C2 :
    (∀ (so : Bool) (data : Json) (t : String) (g g' : GraphState),
        add_candidate_to_neo4j so data t g = .ok g' →
        add_candidate_to_neo4j so data t g' = .ok g') ∧
    (∀ (so : Bool) (data : Json) (t : String) (g g' : GraphState),
        add_candidate_to_neo4j_variant so data t g = .ok g' →
        add_candidate_to_neo4j_variant so data t g' = .ok g') := by
  constructor
  · intro so data t g g' h
    obtain ⟨rfl, fs, sk, ed, pr, ex, ce, rfl, h1, h2, h3, h4, h5, rfl⟩ :=
      add_candidate_ok_inv h
    rw [add_candidate_obj_ok fs t _ sk ed pr ex ce h1 h2 h3 h4 h5]
    exact congrArg Except.ok
      (persist_pass_idem ⟨nameVal fs, t, get_pdf_hash t⟩ _ g)
  · intro so data t g g' h
    obtain ⟨rfl, fs, nm, sk, skl, ed, edl, pr, prl, ex, exl, ce, cel, rfl, hn,
      h1, l1, h2, l2, h3, l3, h4, l4, h5, l5, rfl⟩ := add_candidate_variant_ok_inv h
    rw [add_candidate_variant_obj_ok fs t _ nm sk ed pr ex ce skl edl prl exl cel
      hn h1 l1 h2 l2 h3 l3 h4 l4 h5 l5]
    exact congrArg Except.ok
      (persist_pass_idem ⟨nm, t, get_pdf_hash t⟩ _ g)

set_option maxRecDepth 40000 in
/-- Witness for C2 at Alice's profile and resume text, ingested into the
empty store by each file's upsert. -/
theorem claim_C2_witness :
    add_candidate_to_neo4j true oracleA "resume text of alice"
        ((add_candidate_to_neo4j true oracleA "resume text of alice"
          GraphState.empty).toOption.getD GraphState.empty)
      = .ok ((add_candidate_to_neo4j true oracleA "resume text of alice"
          GraphState.empty).toOption.getD GraphState.empty) ∧
    add_candidate_to_neo4j_variant true oracleA "resume text of alice"
        ((add_candidate_to_neo4j_variant true oracleA "resume text of alice"
          GraphState.empty).toOption.getD GraphState.empty)
      = .ok ((add_candidate_to_neo4j_variant true oracleA "resume text of alice"
          GraphState.empty).toOption.getD GraphState.empty) := by
  constructor
  · exact claim_C2.1 true oracleA "resume text of alice" GraphState.empty _ (by rfl)
  · exact claim_C2.2 true oracleA "resume text of alice" GraphState.empty _ (by rfl)

/-! ## Claim C6 -/

/-- A string containing no ASCII upper-case letter - the post-condition of
the modelled `lower()`. -/
def noUpper (s : String) : Bool :=
  s.data.all (fun c => !(65 ≤ c.toNat && c.toNat ≤ 90))

theorem toNat_ofNat_valid (n : Nat) (h : n.isValidChar) :
    (Char.ofNat n).toNat = n := by
  unfold Char.ofNat Char.toNat
  rw [dif_pos h]
  simp [Char.ofNatAux, UInt32.toNat, BitVec.toNat_ofNatLt]

theorem pyLowerChar_noUpper (c : Char) :
    (65 ≤ (pyLowerChar c).toNat && (pyLowerChar c).toNat ≤ 90) = false := by
  unfold pyLowerChar
  by_cases h : c.toNat ≥ 65 ∧ c.toNat ≤ 90
  · rw [if_pos h]
    have hv : (c.toNat + 32).isValidChar := Or.inl (by omega)
    rw [toNat_ofNat_valid _ hv]
    simp only [Bool.and_eq_false_iff, decide_eq_false_iff_not]
    omega
  · rw [if_neg h]
    simp only [Bool.and_eq_false_iff, decide_eq_false_iff_not]
    omega

theorem pyLowerString_noUpper (s : String) : noUpper (pyLowerString s) = true := by
  unfold noUpper pyLowerString
  rw [show (String.mk (s.data.map pyLowerChar)).data = s.data.map pyLowerChar from rfl]
  rw [List.all_eq_true]
  intro c hc
  obtain ⟨c0, _, rfl⟩ := List.mem_map.mp hc
  rw [pyLowerChar_noUpper c0]
  rfl

/-- A lower-cased string value: some string with no ASCII upper-case
letter. -/
def LoweredStr (v : Json) : Prop := ∃ s, v = .str s ∧ noUpper s = true

/-- A lower-cased list value: an array all of whose elements are lower-cased
strings. -/
def LoweredArr (v : Json) : Prop := ∃ xs, v = .arr xs ∧ ∀ x ∈ xs, LoweredStr x

theorem pyLower_lowered {v w : Json} (h : v.pyLower = some w) : LoweredStr w := by
  cases v <;> simp [Json.pyLower] at h
  exact h ▸ ⟨_, rfl, pyLowerString_noUpper _⟩

theorem lowerAll_lowered {xs ys : List Json} (h : lowerAll xs = some ys) :
    ∀ y ∈ ys, LoweredStr y := by
  induction xs generalizing ys with
  | nil =>
      simp only [lowerAll, Option.some.injEq] at h
      subst h
      intro y hy
      cases hy
  | cons x xs ih =>
      unfold lowerAll at h
      cases hx : x.pyLower with
      | none => rw [hx] at h; cases h
      | some w =>
          rw [hx] at h
          cases hrest : lowerAll xs with
          | none => rw [hrest] at h; cases h
          | some ws =>
              rw [hrest] at h
              simp only [Option.some.injEq] at h
              subst h
              intro y hy
              rcases List.mem_cons.mp hy with rfl | hy
              · exact pyLower_lowered hx
              · exact ih hrest y hy

theorem lowerListField_lowered {v w : Json} (h : lowerListField v = some w) :
    LoweredArr w := by
  unfold lowerListField at h
  cases hit : v.pyIter with
  | none => rw [hit] at h; cases h
  | some xs =>
      rw [hit] at h
      cases hlow : lowerAll xs with
      | none => simp [hlow, bind, Option.bind] at h
      | some ys =>
          simp only [hlow, bind, Option.bind, pure, Option.some.injEq] at h
          exact ⟨ys, h.symm, lowerAll_lowered hlow⟩

set_option maxRecDepth 40000 in
/-- C6: in the word-normalizing variant, every successfully extracted
profile has the fixed six-field shape in which the name and every element of
the five list fields is a string with no ASCII upper-case letter left - the
lower-casing applied before the profile is returned, and hence before it is
persisted.  The base file's extractor instead returns the parsed JSON
unchanged, and its pipeline persists the strings verbatim: ingesting Alice's
mixed-case oracle response stores Candidate name `"Alice"` and Skill nodes
`"Python"` and `"SQL"`, while the variant pipeline stores `"alice"`,
`"python"` and `"sql"` for the same response. -/
theorem claim_C6 :
    (∀ raw p, lowerProfileJson raw = some p →
        ∃ nm sk ed pr ex ce,
          p = .obj [("name", nm), ("skills", sk), ("education", ed),
            ("projects", pr), ("experience", ex), ("certifications", ce)] ∧
          LoweredStr nm ∧ LoweredArr sk ∧ LoweredArr ed ∧ LoweredArr pr ∧
          LoweredArr ex ∧ LoweredArr ce) ∧
    (∀ j, get_structured_data_from_llm (some j) = j) ∧
    processFiles [fileA] ([], GraphState.empty)
      = .ok (["a.pdf"],
          ⟨[⟨.str "Alice", "resume text of alice", get_pdf_hash "resume text of alice"⟩],
           [⟨"Skill", .str "Python"⟩, ⟨"Skill", .str "SQL"⟩],
           [⟨get_pdf_hash "resume text of alice", "HAS_SKILL", "Skill", .str "Python"⟩,
            ⟨get_pdf_hash "resume text of alice", "HAS_SKILL", "Skill", .str "SQL"⟩]⟩) ∧
    processFilesVariant [fileA] ([], GraphState.empty)
      = .ok (["a.pdf"],
          ⟨[⟨.str "alice", "resume text of alice", get_pdf_hash "resume text of alice"⟩],
           [⟨"Skill", .str "python"⟩, ⟨"Skill", .str "sql"⟩],
           [⟨get_pdf_hash "resume text of alice", "HAS_SKILL", "Skill", .str "python"⟩,
            ⟨get_pdf_hash "resume text of alice", "HAS_SKILL", "Skill", .str "sql"⟩]⟩) := by
  refine ⟨?_, fun j => rfl, rfl, rfl⟩
  intro raw p h
  unfold lowerProfileJson at h
  simp only [bind, Option.bind_eq_some, pure, Option.some.injEq] at h
  obtain ⟨nm, ⟨v, hv, hnm⟩, sk, ⟨vs, hvs, hsk⟩, ed, ⟨ve, hve, hed⟩,
    pr, ⟨vp, hvp, hpr⟩, ex, ⟨vx, hvx, hex⟩, ce, ⟨vc, hvc, hce⟩, hp⟩ := h
  exact ⟨nm, sk, ed, pr, ex, ce, hp.symm, pyLower_lowered hnm,
    lowerListField_lowered hsk, lowerListField_lowered hed,
    lowerListField_lowered hpr, lowerListField_lowered hex,
    lowerListField_lowered hce⟩

set_option maxRecDepth 40000 in
/-- Witness for C6's universally quantified parts at Alice's oracle
response and at a mixed-case JSON value. -/
theorem claim_C6_witness :
    (∃ nm sk ed pr ex ce,
        (lowerProfileJson oracleA).getD (.obj [])
          = .obj [("name", nm), ("skills", sk), ("education", ed),
              ("projects", pr), ("experience", ex), ("certifications", ce)] ∧
        LoweredStr nm ∧ LoweredArr sk ∧ LoweredArr ed ∧ LoweredArr pr ∧
        LoweredArr ex ∧ LoweredArr ce) ∧
    get_structured_data_from_llm (some oracleA) = oracleA := by
  constructor
  · obtain ⟨nm, sk, ed, pr, ex, ce, hp, hrest⟩ := claim_C6.1 oracleA
      ((lowerProfileJson oracleA).getD (.obj [])) (by rfl)
    exact ⟨nm, sk, ed, pr, ex, ce, hp, hrest⟩
  · exact claim_C6.2.1 oracleA

/-! ## Claim C5 -/

theorem mergeAttrNode_attrs_nodup {g : GraphState} (a : AttrNode)
    (h : g.attrs.Nodup) : (mergeAttrNode g a).attrs.Nodup := by
  unfold mergeAttrNode
  split
  · exact h
  · next hc =>
    have hnm : a ∉ g.attrs := fun hm => hc (List.elem_iff.mpr hm)
    simp [List.nodup_append, h, hnm]

theorem mergeEdge_edges_nodup {g : GraphState} (e : GraphEdge)
    (h : g.edges.Nodup) : (mergeEdge g e).edges.Nodup := by
  unfold mergeEdge
  split
  · exact h
  · next hc =>
    have hnm : e ∉ g.edges := fun hm => hc (List.elem_iff.mpr hm)
    simp [List.nodup_append, h, hnm]

theorem persistItems_nodup (h rel label : String) (items : List Json)
    {g : GraphState} (ha : g.attrs.Nodup) (he : g.edges.Nodup) :
    (persistItems h rel label items g).attrs.Nodup ∧
      (persistItems h rel label items g).edges.Nodup := by
  induction items generalizing g with
  | nil => exact ⟨ha, he⟩
  | cons x items ih =>
      rw [persistItems_cons]
      refine ih ?_ ?_
      · rw [mergeEdge_attrs]
        exact mergeAttrNode_attrs_nodup _ ha
      · refine mergeEdge_edges_nodup _ ?_
        rw [mergeAttrNode_edges]
        exact he

theorem persistAll_nodup (h : String) (cats : List (String × String × List Json))
    {g : GraphState} (ha : g.attrs.Nodup) (he : g.edges.Nodup) :
    (persistAll h cats g).attrs.Nodup ∧ (persistAll h cats g).edges.Nodup := by
  induction cats generalizing g with
  | nil => exact ⟨ha, he⟩
  | cons c cats ih =>
      rw [persistAll_cons]
      obtain ⟨ha2, he2⟩ := persistItems_nodup h c.2.1 c.1 c.2.2 ha he
      exact ih ha2 he2

/-- Parsed oracle response for Carol, listing skill "python". -/
def oracleC : Json :=
  .obj [("name", .str "Carol"), ("skills", .arr [.str "python"])]

/-- Parsed oracle response for Dan, also listing skill "python". -/
def oracleD : Json :=
  .obj [("name", .str "Dan"), ("skills", .arr [.str "python"])]

/-- Carol's upload. -/
def fileC : UploadFile := ⟨"c.pdf", "resume text of carol", some oracleC, true⟩

/-- Dan's upload. -/
def fileD : UploadFile := ⟨"d.pdf", "resume text of dan", some oracleD, true⟩

set_option maxRecDepth 40000 in
/-- C5: attribute nodes are deduplicated by name within their category.
General part: every successful upsert preserves the invariants that the
attribute-node list and the edge list contain no duplicates - so storing
the same skill string twice never creates a second node for it, and at most
one edge of a given type exists between a given candidate and a given
attribute node.  Concrete part: ingesting Carol's and Dan's profiles, which
both list skill "python", into an empty store yields exactly one Skill node
named "python", two distinct Candidate nodes (their texts hash
differently), and two distinct HAS_SKILL edges, one from each candidate. -/
theorem claim_C5 :
    (∀ (so : Bool) (data : Json) (t : String) (g g' : GraphState),
        add_candidate_to_neo4j so data t g = .ok g' →
        g.attrs.Nodup → g.edges.Nodup → g'.attrs.Nodup ∧ g'.edges.Nodup) ∧
    processFiles [fileC, fileD] ([], GraphState.empty)
      = .ok (["c.pdf", "d.pdf"],
          ⟨[⟨.str "Carol", "resume text of carol", get_pdf_hash "resume text of carol"⟩,
            ⟨.str "Dan", "resume text of dan", get_pdf_hash "resume text of dan"⟩],
           [⟨"Skill", .str "python"⟩],
           [⟨get_pdf_hash "resume text of carol", "HAS_SKILL", "Skill", .str "python"⟩,
            ⟨get_pdf_hash "resume text of dan", "HAS_SKILL", "Skill", .str "python"⟩]⟩) ∧
    get_pdf_hash "resume text of carol" ≠ get_pdf_hash "resume text of dan" := by
  refine ⟨?_, rfl, by decide⟩
  intro so data t g g' h ha he
  obtain ⟨rfl, fs, sk, ed, pr, ex, ce, rfl, h1, h2, h3, h4, h5, rfl⟩ :=
    add_candidate_ok_inv h
  exact persistAll_nodup _ _ (by rw [mergeCandidate_attrs]; exact ha)
    (by rw [mergeCandidate_edges]; exact he)

set_option maxRecDepth 40000 in
/-- Witness for C5's general part at Carol's upsert into the empty store. -/
theorem claim_C5_witness :
    ((add_candidate_to_neo4j true oracleC "resume text of carol"
        GraphState.empty).toOption.getD GraphState.empty).attrs.Nodup ∧
    ((add_candidate_to_neo4j true oracleC "resume text of carol"
        GraphState.empty).toOption.getD GraphState.empty).edges.Nodup :=
  claim_C5.1 true oracleC "resume text of carol" GraphState.empty
    ((add_candidate_to_neo4j true oracleC "resume text of carol"
        GraphState.empty).toOption.getD GraphState.empty)
    (by rfl) List.nodup_nil List.nodup_nil

/-! ## Claim C7 -/

theorem mergeCandidate_hashes (g : GraphState) (c : CandidateNode) :
    (mergeCandidate g c).candidates.map (fun x => x.content_hash) =
      if g.candidates.any (fun x => x.content_hash == c.content_hash)
      then g.candidates.map (fun x => x.content_hash)
      else g.candidates.map (fun x => x.content_hash) ++ [c.content_hash] := by
  unfold mergeCandidate
  split
  · next h =>
    show List.map _ (g.candidates.map _) = _
    rw [List.map_map]
    apply List.map_congr_left
    intro x _
    by_cases hxc : x.content_hash == c.content_hash
    · simp only [Function.comp_apply, if_pos hxc]
      exact (by simpa using hxc : x.content_hash = c.content_hash).symm
    · have hne : x.content_hash ≠ c.content_hash := by simpa using hxc
      simp [hxc, hne]
  · simp

theorem mergeCandidate_candidates_congr {g1 g2 : GraphState} (c : CandidateNode)
    (h : g1.candidates = g2.candidates) :
    (mergeCandidate g1 c).candidates = (mergeCandidate g2 c).candidates := by
  unfold mergeCandidate
  rw [h]
  split <;> rfl

theorem mergeCandidate_hashes_nodup {g : GraphState} (c : CandidateNode)
    (hnd : (g.candidates.map (fun x => x.content_hash)).Nodup) :
    ((mergeCandidate g c).candidates.map (fun x => x.content_hash)).Nodup := by
  rw [mergeCandidate_hashes]
  split
  · exact hnd
  · next h =>
    have hnm : c.content_hash ∉ g.candidates.map (fun x => x.content_hash) := by
      intro hm
      obtain ⟨x, hx, hxc⟩ := List.mem_map.mp hm
      exact h (List.any_eq_true.mpr ⟨x, hx, by simp [hxc]⟩)
    simp [List.nodup_append, hnd, hnm]

theorem mergeCandidate_count {g : GraphState} (c : CandidateNode)
    (hnd : (g.candidates.map (fun x => x.content_hash)).Nodup) :
    (mergeCandidate g c).candidates.countP
        (fun x => x.content_hash == c.content_hash) = 1 := by
  have hgen : ∀ l : List CandidateNode,
      l.countP (fun x => x.content_hash == c.content_hash) =
        (l.map (fun x => x.content_hash)).count c.content_hash := by
    intro l
    rw [show (l.map (fun x => x.content_hash)).count c.content_hash =
      (l.map (fun x => x.content_hash)).countP (fun y => y == c.content_hash) from rfl]
    rw [List.countP_map]
    rfl
  rw [hgen, mergeCandidate_hashes]
  split
  · next h =>
    rw [List.any_eq_true] at h
    obtain ⟨x, hx, hxc⟩ := h
    have hmem : c.content_hash ∈ g.candidates.map (fun x => x.content_hash) :=
      List.mem_map.mpr ⟨x, hx, by simpa using hxc⟩
    have hle := List.nodup_iff_count_le_one.mp hnd c.content_hash
    have hpos := List.count_pos_iff.mpr hmem
    omega
  · next h =>
    rw [List.count_append]
    have hz : (g.candidates.map (fun x => x.content_hash)).count c.content_hash = 0 := by
      rw [List.count_eq_zero]
      intro hm
      obtain ⟨x, hx, hxc⟩ := List.mem_map.mp hm
      exact h (List.any_eq_true.mpr ⟨x, hx, by simp [hxc]⟩)
    rw [hz]
    simp

/-- C7: the fingerprint `get_pdf_hash` is a deterministic pure function of
the extracted text (two computations on the same text give the same value),
and consequently two successive upserts of byte-identical extracted text -
whatever profiles the oracle produced for them - land on the same single
Candidate node: the resulting store has exactly one Candidate carrying that
content hash, and the no-duplicate-hash invariant of the candidate list is
preserved. -/
theorem claim_C7 :
    (∀ t : String, get_pdf_hash t = get_pdf_hash t) ∧
    (∀ (so1 so2 : Bool) (d1 d2 : Json) (t : String) (g g1 g2 : GraphState),
        (g.candidates.map (fun x => x.content_hash)).Nodup →
        add_candidate_to_neo4j so1 d1 t g = .ok g1 →
        add_candidate_to_neo4j so2 d2 t g1 = .ok g2 →
        ((g2.candidates.map (fun x => x.content_hash)).Nodup ∧
          g2.candidates.countP (fun x => x.content_hash == get_pdf_hash t) = 1)) := by
  refine ⟨fun t => rfl, ?_⟩
  intro so1 so2 d1 d2 t g g1 g2 hnd hA hB
  obtain ⟨rfl, fs1, sk1, ed1, pr1, ex1, ce1, rfl, _, _, _, _, _, hg1⟩ :=
    add_candidate_ok_inv hA
  obtain ⟨rfl, fs2, sk2, ed2, pr2, ex2, ce2, rfl, _, _, _, _, _, hg2⟩ :=
    add_candidate_ok_inv hB
  have e1 : g1.candidates
      = (mergeCandidate g ⟨nameVal fs1, t, get_pdf_hash t⟩).candidates := by
    rw [hg1, persistAll_candidates]
  have e2 : g2.candidates
      = (mergeCandidate (mergeCandidate g ⟨nameVal fs1, t, get_pdf_hash t⟩)
          ⟨nameVal fs2, t, get_pdf_hash t⟩).candidates := by
    rw [hg2, persistAll_candidates]
    exact mergeCandidate_candidates_congr _ e1
  rw [e2]
  have hnd1 := mergeCandidate_hashes_nodup (g := g)
    ⟨nameVal fs1, t, get_pdf_hash t⟩ hnd
  exact ⟨mergeCandidate_hashes_nodup _ hnd1,
    mergeCandidate_count ⟨nameVal fs2, t, get_pdf_hash t⟩ hnd1⟩

set_option maxRecDepth 40000 in
/-- Witness for C7: Carol's text ingested twice (with Carol's and Dan's
profiles) into the empty store resolves to a single Candidate node with
that hash. -/
theorem claim_C7_witness :
    get_pdf_hash "resume text of carol" = get_pdf_hash "resume text of carol" ∧
    (((add_candidate_to_neo4j true oracleD "resume text of carol"
        ((add_candidate_to_neo4j true oracleC "resume text of carol"
          GraphState.empty).toOption.getD GraphState.empty)).toOption.getD
            GraphState.empty).candidates.countP
      (fun x => x.content_hash == get_pdf_hash "resume text of carol")) = 1 := by
  refine ⟨claim_C7.1 "resume text of carol", ?_⟩
  exact (claim_C7.2 true true oracleC oracleD "resume text of carol"
    GraphState.empty
    ((add_candidate_to_neo4j true oracleC "resume text of carol"
      GraphState.empty).toOption.getD GraphState.empty)
    ((add_candidate_to_neo4j true oracleD "resume text of carol"
      ((add_candidate_to_neo4j true oracleC "resume text of carol"
        GraphState.empty).toOption.getD GraphState.empty)).toOption.getD
          GraphState.empty)
    List.nodup_nil (by rfl) (by rfl)).2

/-! ## Claim C1 -/

theorem mem_candidateSkillNames {g : GraphState} {c : CandidateNode} {x : Json} :
    x ∈ candidateSkillNames g c ↔
      ∃ a ∈ g.attrs, a.label = "Skill" ∧
        (⟨c.content_hash, "HAS_SKILL", a.label, a.name⟩ : GraphEdge) ∈ g.edges ∧
        a.name = x := by
  unfold candidateSkillNames
  simp only [List.mem_map, List.mem_filter, Bool.and_eq_true, beq_iff_eq,
    List.elem_iff]
  tauto

theorem mem_matchedSkillNames {g : GraphState} {skills : List String}
    {c : CandidateNode} {x : Json} :
    x ∈ matchedSkillNames g skills c ↔
      x ∈ skills.map Json.str ∧ x ∈ candidateSkillNames g c := by
  unfold matchedSkillNames
  rw [List.mem_dedup, mem_candidateSkillNames]
  simp only [List.mem_map, List.mem_filter, Bool.and_eq_true, beq_iff_eq,
    List.elem_iff, List.any_eq_true]
  constructor
  · rintro ⟨a, haa, hx⟩
    obtain ⟨ha, hl, hsk, he⟩ :
        a ∈ g.attrs ∧ a.label = "Skill" ∧ (∃ sk ∈ skills, a.name = Json.str sk) ∧
          (⟨c.content_hash, "HAS_SKILL", a.label, a.name⟩ : GraphEdge) ∈ g.edges := by
      tauto
    obtain ⟨sk, hskm, hname⟩ := hsk
    exact ⟨⟨sk, hskm, by rw [← hx, hname]⟩, a, ha, hl, he, hx⟩
  · rintro ⟨⟨sk, hsk, hx⟩, a, ha, hl, he, hax⟩
    refine ⟨a, ?_, hax⟩
    have hname : ∃ sk ∈ skills, a.name = Json.str sk := ⟨sk, hsk, by rw [hax, hx]⟩
    tauto

theorem matched_length_iff {g : GraphState} {skills : List String}
    {c : CandidateNode} (hnd : skills.Nodup) :
    (matchedSkillNames g skills c).length = skills.length ↔
      ∀ sk ∈ skills, Json.str sk ∈ candidateSkillNames g c := by
  have hstrinj : Function.Injective Json.str := fun a b h => by injection h
  have hmapnd : (skills.map Json.str).Nodup := hnd.map hstrinj
  have hndM : (matchedSkillNames g skills c).Nodup := List.nodup_dedup _
  have hsub : matchedSkillNames g skills c ⊆ skills.map Json.str :=
    fun x hx => (mem_matchedSkillNames.mp hx).1
  constructor
  · intro hlen sk hsk
    have hsp : List.Subperm (matchedSkillNames g skills c) (skills.map Json.str) :=
      List.subperm_of_subset hndM hsub
    have hperm : List.Perm (matchedSkillNames g skills c) (skills.map Json.str) :=
      hsp.perm_of_length_le (by rw [hlen, List.length_map])
    have hmem : Json.str sk ∈ matchedSkillNames g skills c :=
      hperm.mem_iff.mpr (List.mem_map_of_mem _ hsk)
    exact (mem_matchedSkillNames.mp hmem).2
  · intro hall
    have hsub2 : skills.map Json.str ⊆ matchedSkillNames g skills c := by
      intro x hx
      obtain ⟨sk, hsk, rfl⟩ := List.mem_map.mp hx
      exact mem_matchedSkillNames.mpr ⟨List.mem_map_of_mem _ hsk, hall sk hsk⟩
    have hsp1 := List.subperm_of_subset hndM hsub
    have hsp2 := List.subperm_of_subset hmapnd hsub2
    have hlen := le_antisymm hsp1.length_le hsp2.length_le
    rw [hlen, List.length_map]

/-- Well-formedness of a store state, maintained by the ingestion pipeline:
no two Candidate nodes share a `content_hash`, and every Candidate's
`content_hash` is the fingerprint of its own `content`. -/
def WFGraph (g : GraphState) : Prop :=
  (g.candidates.map (fun c => c.content_hash)).Nodup ∧
    ∀ c ∈ g.candidates, c.content_hash = get_pdf_hash c.content

theorem WF_pair_inj {g : GraphState} (hwf : WFGraph g) {c c' : CandidateNode}
    (hc : c ∈ g.candidates) (hc' : c' ∈ g.candidates)
    (hcont : c'.content = c.content) : c' = c := by
  have hh : c'.content_hash = c.content_hash := by
    rw [hwf.2 c' hc', hwf.2 c hc, hcont]
  exact List.inj_on_of_nodup_map hwf.1 hc' hc hh

set_option maxRecDepth 40000 in
/-- C1: the multi-skill query returns exactly the candidates whose set of
HAS_SKILL-connected Skill-node names contains every requested skill name.
General part: over any well-formed store, for a duplicate-free non-empty
requested list (a set of skill names), a stored candidate's
`(name, content)` row is returned iff the candidate's Skill names include
every requested name, with exact string equality; and the returned rows are
always duplicate-free (`RETURN DISTINCT`), so each matching candidate
appears at most once.  Concrete part: with candidate alice holding skills
python and sql and candidate bob holding python (the variant pipeline's
store for Alice's and Bob's uploads), searching python-and-sql returns only
alice and searching python returns both. -/
theorem claim_C1 :
    (∀ (g : GraphState) (skills : List String) (c : CandidateNode),
        WFGraph g → skills.Nodup → skills ≠ [] → c ∈ g.candidates →
        ((c.name, c.content) ∈ multiSkillSearch g skills ↔
          ∀ sk ∈ skills, Json.str sk ∈ candidateSkillNames g c)) ∧
    (∀ (g : GraphState) (skills : List String),
        (multiSkillSearch g skills).Nodup) ∧
    multiSkillSearch demoGraph ["python", "sql"]
      = [(.str "alice", "resume text of alice")] ∧
    multiSkillSearch demoGraph ["python"]
      = [(.str "alice", "resume text of alice"),
         (.str "bob", "resume text of bob")] := by
  refine ⟨?_, fun g skills => List.nodup_dedup _, rfl, rfl⟩
  intro g skills c hwf hnd hne hc
  unfold multiSkillSearch
  rw [List.mem_dedup, List.mem_map]
  constructor
  · rintro ⟨c', hc', hpair⟩
    rw [List.mem_filter] at hc'
    obtain ⟨hc'mem, hcond⟩ := hc'
    have hcont : c'.content = c.content := by injection hpair
    have hcc : c' = c := WF_pair_inj hwf hc hc'mem hcont
    subst hcc
    simp only [Bool.and_eq_true, bne_iff_ne, beq_iff_eq] at hcond
    exact (matched_length_iff hnd).mp hcond.2
  · intro hall
    have hlen := (matched_length_iff hnd).mpr hall
    refine ⟨c, List.mem_filter.mpr ⟨hc, ?_⟩, rfl⟩
    have hne' : skills.length ≠ 0 := by
      cases skills with
      | nil => exact absurd rfl hne
      | cons a l => simp
    rw [hlen]
    simp [hne']

set_option maxRecDepth 100000 in
/-- Witness for C1's general part: Bob's node in the demo store is returned
by the single-element query python. -/
theorem claim_C1_witness :
    (Json.str "bob", "resume text of bob") ∈ multiSkillSearch demoGraph ["python"] := by
  have h := (claim_C1.1 demoGraph ["python"]
    ⟨.str "bob", "resume text of bob", get_pdf_hash "resume text of bob"⟩
    ⟨by decide, by decide⟩ (by decide) (by decide) (by decide)).mpr (by decide)
  exact h
